import Mathlib

/-!
# Verification of the flagga flag-set parser and source-resolution engine

A shallow embedding of the `flagga` Go package: the value-coercion engine
(`value.Set` and the `assign*` family), the argument tokenizer
(`FlagSet.parseNext` / `FlagSet.setValue`), the driving `FlagSet.Parse` with
its source open/close lifecycle, and the two canonical extractors
(`envExtractor.Get`, `jsonExtractor.Get`).

Modelling conventions:
* Go strings are modelled as `List Char` (`Str`).  Lengths and indexing are in
  characters; all inputs exercised here are ASCII, where this coincides with
  Go's byte-based lengths.
* Go `int`/`int64` are modelled as `Int` and `uint`/`uint64` as `Nat`;
  conversions between them wrap two's-complement at 64 bits (`wrap64`,
  `uns64`), as on a 64-bit Go platform.
* Go `float64`/`float32` are modelled as exact rationals (`Rat`); numeric
  conversions truncate toward zero.  This agrees with IEEE arithmetic on every
  value exercised by the claims (small integral and short decimal literals).
* The standard-library parsers called by the source
  (`strconv.ParseInt/ParseUint/ParseBool/ParseFloat`, `time.ParseDuration`)
  are embedded from their documented Go semantics.  `ParseFloat`'s
  `inf`/`nan`/hex-literal/underscore forms and `ParseDuration`'s
  float-rounding of fractional mantissas are not needed by any claim and are
  modelled with exact arithmetic.
* Error VALUES are modelled structurally (which check failed), not as the
  literal Go message strings; parse-level errors carry the same data as the
  `fmt.Errorf` calls (e.g. the offending token for "invalid flag syntax").
* `FlagSet.Parse` is modelled with the `ContinueOnError` policy (the zero
  value of `ErrorHandling`, used by every test): errors are returned to the
  caller.  `ExitOnError`/`PanicOnError` terminate the process and are outside
  the embedded core.
* Go map iteration order over `fs.flags` is unspecified; the model iterates in
  registration order.  The claims settled here are insensitive to that order.
* `Parse` is instrumented with an event trace recording source `Open`/`Close`
  calls, `Source.Get` queries made by extractors, and default applications;
  these events mark exactly the corresponding calls in the Go code.
-/

namespace Flagga

/-- Go strings, as lists of characters. -/
abbrev Str := List Char

/-- Two's-complement wrap of an integer into the `int64` range, as performed
by Go conversions to `int`/`int64`/`time.Duration` on a 64-bit platform. -/
def wrap64 (n : Int) : Int :=
  let m := n % (2 ^ 64 : Int)
  if m < 2 ^ 63 then m else m - 2 ^ 64

/-- Go conversion of a (possibly signed) integer to `uint`/`uint64`:
reinterpretation modulo `2^64`. -/
def uns64 (n : Int) : Nat :=
  (n % (2 ^ 64 : Int)).toNat

/-- Truncation toward zero, the rounding Go uses for float-to-integer
conversions. -/
def ratTrunc (q : Rat) : Int :=
  if 0 ≤ q then q.floor else q.ceil

/-- Digit test, `'0' <= c && c <= '9'`. -/
def isDig (c : Char) : Bool :=
  c.isDigit

/-- Numeric value of a digit character. -/
def digVal (c : Char) : Nat :=
  c.toNat - '0'.toNat

/-- Value of a digit string (most significant first), accumulator form. -/
def digitsVal : Nat → Str → Nat
  | acc, [] => acc
  | acc, c :: rest => digitsVal (acc * 10 + digVal c) rest

/-- Split a string into its leading run of digits and the remainder. -/
def spanDigits : Str → Str × Str
  | [] => ([], [])
  | c :: rest =>
    if isDig c then
      let (ds, rem) := spanDigits rest
      (c :: ds, rem)
    else
      ([], c :: rest)

/-- `strconv.ParseInt(s, 10, 64)`: optional sign, then base-10 digits, range
checked against `int64`.  Go reports range overflow through a non-nil error,
which the callers in this package treat as failure, so the model returns
`none` for both syntax and range errors. -/
def goParseInt (s : Str) : Option Int :=
  match s with
  | [] => none
  | c :: rest =>
    let (neg, digits) :=
      if c = '-' then (true, rest)
      else if c = '+' then (false, rest)
      else (false, c :: rest)
    if digits = [] ∨ ¬ digits.all isDig then none
    else
      let v : Nat := digitsVal 0 digits
      if neg then
        if (v : Int) ≤ 2 ^ 63 then some (-(v : Int)) else none
      else
        if (v : Int) ≤ 2 ^ 63 - 1 then some (v : Int) else none

/-- `strconv.ParseUint(s, 10, 64)`: base-10 digits, no sign permitted, range
checked against `uint64`.  As with `goParseInt`, range errors yield `none`. -/
def goParseUint (s : Str) : Option Nat :=
  if s = [] ∨ ¬ s.all isDig then none
  else
    let v := digitsVal 0 s
    if v ≤ 2 ^ 64 - 1 then some v else none

/-- `strconv.ParseBool`: accepts exactly the canonical boolean literals. -/
def goParseBool (s : Str) : Option Bool :=
  if s = 't' :: [] ∨ s = 'T' :: [] ∨ s = '1' :: [] ∨
     s = ('t' :: 'r' :: 'u' :: 'e' :: []) ∨
     s = ('T' :: 'r' :: 'u' :: 'e' :: []) ∨
     s = ('T' :: 'R' :: 'U' :: 'E' :: []) then some true
  else if s = 'f' :: [] ∨ s = 'F' :: [] ∨ s = '0' :: [] ∨
     s = ('f' :: 'a' :: 'l' :: 's' :: 'e' :: []) ∨
     s = ('F' :: 'a' :: 'l' :: 's' :: 'e' :: []) ∨
     s = ('F' :: 'A' :: 'L' :: 'S' :: 'E' :: []) then some false
  else none

/-- `strconv.ParseFloat(s, 64)` on decimal literals: optional sign, mantissa
`d+[.d*] | .d+`, optional exponent `(e|E)[+-]?d+`; evaluated exactly over the
rationals.  Go additionally accepts `inf`/`nan`/hex-float/underscore forms and
rounds to the nearest binary64; no claim exercises those aspects. -/
def floatExp (mant : Rat) (neg : Bool) (rem : Str) : Option Rat :=
  let signed := if neg then -mant else mant
  match rem with
  | [] => some signed
  | e :: etl =>
    if e = 'e' ∨ e = 'E' then
      let (eneg, edigs) :=
        match etl with
        | '-' :: tl => (true, tl)
        | '+' :: tl => (false, tl)
        | tl => (false, tl)
      if edigs = [] ∨ ¬ edigs.all isDig then none
      else
        let ex := digitsVal 0 edigs
        if eneg then some (signed / (10 : Rat) ^ ex) else some (signed * (10 : Rat) ^ ex)
    else none

def goParseFloat (s : Str) : Option Rat :=
  match s with
  | [] => none
  | c :: rest =>
    let (neg, body) :=
      if c = '-' then (true, rest)
      else if c = '+' then (false, rest)
      else (false, c :: rest)
    let (ip, rem₁) := spanDigits body
    match rem₁ with
    | '.' :: tl =>
      let (fp, rem₂) := spanDigits tl
      if ip = [] ∧ fp = [] then none
      else
        floatExp ((digitsVal 0 ip : Rat) + (digitsVal 0 fp : Rat) / ((10 : Rat) ^ fp.length))
          neg rem₂
    | _ =>
      if ip = [] then none
      else floatExp (digitsVal 0 ip : Rat) neg rem₁

/-- Unit table of `time.ParseDuration`, in nanoseconds per unit. -/
def durUnit (u : Str) : Option Nat :=
  if u = ('n' :: 's' :: []) then some 1
  else if u = ('u' :: 's' :: []) then some 1000
  else if u = ('µ' :: 's' :: []) then some 1000
  else if u = ('μ' :: 's' :: []) then some 1000
  else if u = ('m' :: 's' :: []) then some 1000000
  else if u = ('s' :: []) then some 1000000000
  else if u = ('m' :: []) then some 60000000000
  else if u = ('h' :: []) then some 3600000000000
  else none

/-- `time.leadingInt`: consume leading digits into an `int64`, failing on
overflow.  Overflow (`x < 0` in Go's signed arithmetic) is a value reaching
`2^63`. -/
def leadingIntAux : Nat → Str → Option (Nat × Str)
  | x, [] => some (x, [])
  | x, c :: rest =>
    if ¬ isDig c then some (x, c :: rest)
    else if x > (2 ^ 63 - 1) / 10 then none
    else
      let y := x * 10 + digVal c
      if y > 2 ^ 63 - 1 then none
      else leadingIntAux y rest

def leadingInt (s : Str) : Option (Nat × Str) :=
  leadingIntAux 0 s

/-- `time.leadingFraction`: consume digits after the decimal point, freezing
the accumulator once it would overflow. -/
def leadingFracAux : Nat → Nat → Bool → Str → Nat × Nat × Str
  | x, scale, _, [] => (x, scale, [])
  | x, scale, overflow, c :: rest =>
    if ¬ isDig c then (x, scale, c :: rest)
    else if overflow then leadingFracAux x scale overflow rest
    else if x > (2 ^ 63 - 1) / 10 then leadingFracAux x scale true rest
    else
      let y := x * 10 + digVal c
      if y > 2 ^ 63 - 1 then leadingFracAux x scale true rest
      else leadingFracAux y (scale * 10) overflow rest

def leadingFraction (s : Str) : Nat × Nat × Str :=
  leadingFracAux 0 1 false s

/-- The leading run of unit characters: everything up to the next digit or
`'.'`. -/
def spanUnit : Str → Str × Str
  | [] => ([], [])
  | c :: rest =>
    if c = '.' ∨ isDig c then ([], c :: rest)
    else
      let (u, r) := spanUnit rest
      (c :: u, r)

/-- The `for s != ""` loop of `time.ParseDuration`, accumulating the total in
`d`.  Each iteration consumes a `[0-9.]+` mantissa and a nonempty unit, so the
input length is a sufficient fuel bound.  Go computes the fractional
contribution as `int64(float64(f) * (float64(unit) / scale))`; the model uses
the exact `(f * unit) / scale`, which agrees on all claim inputs (none have a
fractional mantissa). -/
def durLoop : Nat → Nat → Str → Option Nat
  | _, d, [] => some d
  | 0, _, _ => none
  | fuel + 1, d, c :: s₀ =>
    let s := c :: s₀
    if ¬ (c = '.' ∨ isDig c) then none
    else
      match leadingInt s with
      | none => none
      | some (v, rem) =>
        let pre := rem.length ≠ s.length
        let (f, scale, rem₂, post) :=
          match rem with
          | '.' :: tl =>
            let (f, sc, r) := leadingFraction tl
            (f, sc, r, decide (r.length ≠ tl.length))
          | _ => ((0 : Nat), (1 : Nat), rem, false)
        if ¬ pre ∧ ¬ (post = true) then none
        else
          let (u, rem₃) := spanUnit rem₂
          if u = [] then none
          else
            match durUnit u with
            | none => none
            | some unit =>
              if v > (2 ^ 63 - 1) / unit then none
              else
                let v₁ := v * unit
                let v₂? : Option Nat :=
                  if f > 0 then
                    let v₂ := v₁ + (f * unit) / scale
                    if v₂ > 2 ^ 63 - 1 then none else some v₂
                  else some v₁
                match v₂? with
                | none => none
                | some v₂ =>
                  let d' := d + v₂
                  if d' > 2 ^ 63 - 1 then none
                  else durLoop fuel d' rem₃

/-- The `[-+]?` sign consumption of `time.ParseDuration`. -/
def durSign : Str → Bool × Str
  | '-' :: tl => (true, tl)
  | '+' :: tl => (false, tl)
  | s => (false, s)

/-- `time.ParseDuration`: optional sign, special case for the literal `"0"`,
then the repeated number-unit loop.  `none` models any non-nil error. -/
def goParseDuration (s : Str) : Option Int :=
  let p := durSign s
  if p.2 = '0' :: [] then some 0
  else if p.2 = [] then none
  else
    match durLoop (p.2.length + 1) 0 p.2 with
    | none => none
    | some d => some (if p.1 then -(d : Int) else (d : Int))

/-- Runtime (`interface{}`) values that can reach `value.Set`: the typed
values produced by the tokenizer (strings), by the env source (strings), by
callers (typed defaults) and by the JSON decoder (`nil`, `bool`, `float64`,
`string`, `[]interface{}`, objects). -/
inductive GoVal where
  | str (s : Str)
  | bytes (s : Str)
  | boolean (b : Bool)
  | int (n : Int)
  | int64 (n : Int)
  | uint (n : Nat)
  | uint64 (n : Nat)
  | float32 (q : Rat)
  | float64 (q : Rat)
  | duration (n : Int)
  | strList (l : List Str)
  | intList (l : List Int)
  | int64List (l : List Int)
  | uintList (l : List Nat)
  | uint64List (l : List Nat)
  | float32List (l : List Rat)
  | float64List (l : List Rat)
  | durationList (l : List Int)
  | ifaceList (l : List GoVal)
  | nilVal
  deriving Repr

/-- The destination slot wrapped by a `value`: one constructor per supported
pointer type, carrying the slot's current contents. -/
inductive Dest where
  | dString (v : Str)
  | dFloat64 (v : Rat)
  | dBool (v : Bool)
  | dUint (v : Nat)
  | dInt (v : Int)
  | dUint64 (v : Nat)
  | dInt64 (v : Int)
  | dDuration (v : Int)
  | dStringList (v : List Str)
  | dFloat64List (v : List Rat)
  | dIntList (v : List Int)
  | dUintList (v : List Nat)
  | dInt64List (v : List Int)
  | dUint64List (v : List Nat)
  | dDurationList (v : List Int)
  deriving Repr, DecidableEq

/-- Coercion-level errors.  Go carries message strings
(`strconv`/`time` parse errors, `cannot assign type %T to ...`); the claims
depend only on which kind of failure occurred. -/
inductive VErr where
  | parseFailure
  | badType
  deriving Repr, DecidableEq

/-- Decimal rendering of a natural number. -/
def natToStr (n : Nat) : Str :=
  Nat.toDigits 10 n

/-- Decimal rendering of an integer. -/
def intToStr (n : Int) : Str :=
  if n < 0 then '-' :: natToStr n.natAbs else natToStr n.toNat

/-- `fmt.Sprint` as used by `assignString`'s default branch.  Integers and
booleans render exactly as in Go; floats, durations and composite values are
rendered recognisably but not verb-for-verb (`%g` shortest-float notation and
`Duration.String` are standard-library formatting that no claim exercises). -/
def goSprint : GoVal → Str
  | .str s => s
  | .bytes s => s
  | .boolean true => 't' :: 'r' :: 'u' :: 'e' :: []
  | .boolean false => 'f' :: 'a' :: 'l' :: 's' :: 'e' :: []
  | .int n => intToStr n
  | .int64 n => intToStr n
  | .uint n => natToStr n
  | .uint64 n => natToStr n
  | .float32 q => intToStr q.num ++ ('/' :: natToStr q.den)
  | .float64 q => intToStr q.num ++ ('/' :: natToStr q.den)
  | .duration n => intToStr n ++ ('n' :: 's' :: [])
  | .nilVal => '<' :: 'n' :: 'i' :: 'l' :: '>' :: []
  | _ => '[' :: ']' :: []

/-- `assignString`: the contents written through the `*string` destination.
There is no failure path; the result does not depend on the slot's previous
contents. -/
def assignString (val : GoVal) : Str :=
  match val with
  | .str s => s
  | .bytes s => s
  | _ => goSprint val

/-- String branch shared by `assignFloat64`'s `string` and `[]byte` cases
(the latter recurses with `string(val)` in Go). -/
def strToFloat (dst : Rat) (s : Str) : Rat × Option VErr :=
  match goParseFloat s with
  | none => (dst, some .parseFailure)
  | some q => (q, none)

/-- `assignFloat64`. -/
def assignFloat64 (dst : Rat) (val : GoVal) : Rat × Option VErr :=
  match val with
  | .float64 q => (q, none)
  | .float32 q => (q, none)
  | .str s => strToFloat dst s
  | .int n => ((n : Rat), none)
  | .int64 n => ((n : Rat), none)
  | .uint n => ((n : Rat), none)
  | .uint64 n => ((n : Rat), none)
  | .bytes s => strToFloat dst s
  | _ => (dst, some .badType)

/-- String branch shared by `assignInt`'s `string` and `[]byte` cases. -/
def strToInt (dst : Int) (s : Str) : Int × Option VErr :=
  match goParseInt s with
  | none => (dst, some .parseFailure)
  | some n => (n, none)

/-- `assignInt` (64-bit platform: `int` and `int64` coincide). -/
def assignInt (dst : Int) (val : GoVal) : Int × Option VErr :=
  match val with
  | .int n => (n, none)
  | .int64 n => (n, none)
  | .uint n => (wrap64 n, none)
  | .uint64 n => (wrap64 n, none)
  | .float64 q => (wrap64 (ratTrunc q), none)
  | .str s => strToInt dst s
  | .bytes s => strToInt dst s
  | _ => (dst, some .badType)

/-- String branch shared by `assignUint`'s `string` and `[]byte` cases. -/
def strToUint (dst : Nat) (s : Str) : Nat × Option VErr :=
  match goParseUint s with
  | none => (dst, some .parseFailure)
  | some n => (n, none)

/-- `assignUint`. -/
def assignUint (dst : Nat) (val : GoVal) : Nat × Option VErr :=
  match val with
  | .uint n => (n, none)
  | .int64 n => (uns64 n, none)
  | .int n => (uns64 n, none)
  | .uint64 n => (n, none)
  | .float64 q => (uns64 (ratTrunc q), none)
  | .str s => strToUint dst s
  | .bytes s => strToUint dst s
  | _ => (dst, some .badType)

/-- `assignInt64`. -/
def assignInt64 (dst : Int) (val : GoVal) : Int × Option VErr :=
  match val with
  | .int n => (n, none)
  | .int64 n => (n, none)
  | .uint n => (wrap64 n, none)
  | .uint64 n => (wrap64 n, none)
  | .float64 q => (wrap64 (ratTrunc q), none)
  | .str s => strToInt dst s
  | .bytes s => strToInt dst s
  | _ => (dst, some .badType)

/-- `assignUint64`. -/
def assignUint64 (dst : Nat) (val : GoVal) : Nat × Option VErr :=
  match val with
  | .uint n => (n, none)
  | .int64 n => (uns64 n, none)
  | .int n => (uns64 n, none)
  | .uint64 n => (n, none)
  | .float64 q => (uns64 (ratTrunc q), none)
  | .str s => strToUint dst s
  | .bytes s => strToUint dst s
  | _ => (dst, some .badType)

/-- String branch shared by `assignBool`'s `string` and `[]byte` cases. -/
def strToBool (dst : Bool) (s : Str) : Bool × Option VErr :=
  match goParseBool s with
  | none => (dst, some .parseFailure)
  | some b => (b, none)

/-- `assignBool`. -/
def assignBool (dst : Bool) (val : GoVal) : Bool × Option VErr :=
  match val with
  | .boolean b => (b, none)
  | .str s => strToBool dst s
  | .bytes s => strToBool dst s
  | _ => (dst, some .badType)

/-- String branch shared by `assignDuration`'s `string` and `[]byte` cases. -/
def strToDuration (dst : Int) (s : Str) : Int × Option VErr :=
  match goParseDuration s with
  | none => (dst, some .parseFailure)
  | some n => (n, none)

/-- `assignDuration`: a duration directly, any numeric kind converted to
`time.Duration` (raw nanosecond ticks), or a `time.ParseDuration` literal. -/
def assignDuration (dst : Int) (val : GoVal) : Int × Option VErr :=
  match val with
  | .duration n => (n, none)
  | .int n => (n, none)
  | .int64 n => (n, none)
  | .uint n => (wrap64 n, none)
  | .uint64 n => (wrap64 n, none)
  | .float64 q => (wrap64 (ratTrunc q), none)
  | .str s => strToDuration dst s
  | .bytes s => strToDuration dst s
  | _ => (dst, some .badType)

/-- The `make`-then-fill loop shared by the `[]interface{}` and `[]string`
cases of the numeric list assigns: the destination is replaced by a
zero-filled slice of the input's length and filled element-wise with the
scalar assign; a failing element aborts, leaving the remaining slots zero. -/
def fillLoop {α : Type} (assign : α → GoVal → α × Option VErr) (zero : α) :
    List GoVal → List α × Option VErr
  | [] => ([], none)
  | v :: rest =>
    match assign zero v with
    | (x, none) =>
      let (l, e) := fillLoop assign zero rest
      (x :: l, e)
    | (x, some e) => (x :: rest.map (fun _ => zero), some e)

/-- Membership of the scalar-append case list
`case []byte, string, int, uint, uint64, int64, float64` shared by the
int/uint/int64/uint64 list assigns. -/
def numScalarCase : GoVal → Bool
  | .bytes _ | .str _ | .int _ | .uint _ | .uint64 _ | .int64 _ | .float64 _ => true
  | _ => false

/-- Scalar-append case list of `assignDurationList`
(`[]byte, string, int, uint, uint64, int64, time.Duration, float64`). -/
def durScalarCase : GoVal → Bool
  | .bytes _ | .str _ | .int _ | .uint _ | .uint64 _ | .int64 _
  | .duration _ | .float64 _ => true
  | _ => false

/-- Scalar-append case list of `assignFloat64List`
(`[]byte, string, float32, float64, int, uint, int64, uint64`). -/
def floatScalarCase : GoVal → Bool
  | .bytes _ | .str _ | .float32 _ | .float64 _ | .int _ | .uint _
  | .int64 _ | .uint64 _ => true
  | _ => false

/-- `assignStringList` (no failure path). -/
def assignStringList (dst : List Str) (val : GoVal) : List Str :=
  match val with
  | .ifaceList l => l.map assignString
  | .strList l => l
  | v => dst ++ [assignString v]

/-- `assignIntList`. -/
def assignIntList (dst : List Int) (val : GoVal) : List Int × Option VErr :=
  match val with
  | .ifaceList l => fillLoop assignInt 0 l
  | .strList l => fillLoop assignInt 0 (l.map GoVal.str)
  | .intList l => (l, none)
  | .uintList l => (l.map (fun v => wrap64 v), none)
  | .int64List l => (l, none)
  | .uint64List l => (l.map (fun v => wrap64 v), none)
  | .float64List l => (l.map (fun v => wrap64 (ratTrunc v)), none)
  | v =>
    if numScalarCase v then
      match assignInt 0 v with
      | (_, some e) => (dst, some e)
      | (x, none) => (dst ++ [x], none)
    else (dst, some .badType)

/-- `assignUintList`. -/
def assignUintList (dst : List Nat) (val : GoVal) : List Nat × Option VErr :=
  match val with
  | .ifaceList l => fillLoop assignUint 0 l
  | .strList l => fillLoop assignUint 0 (l.map GoVal.str)
  | .uintList l => (l, none)
  | .intList l => (l.map (fun v => uns64 v), none)
  | .int64List l => (l.map (fun v => uns64 v), none)
  | .uint64List l => (l, none)
  | .float64List l => (l.map (fun v => uns64 (ratTrunc v)), none)
  | v =>
    if numScalarCase v then
      match assignUint 0 v with
      | (_, some e) => (dst, some e)
      | (x, none) => (dst ++ [x], none)
    else (dst, some .badType)

/-- `assignInt64List`. -/
def assignInt64List (dst : List Int) (val : GoVal) : List Int × Option VErr :=
  match val with
  | .ifaceList l => fillLoop assignInt64 0 l
  | .strList l => fillLoop assignInt64 0 (l.map GoVal.str)
  | .int64List l => (l, none)
  | .uintList l => (l.map (fun v => wrap64 v), none)
  | .intList l => (l, none)
  | .uint64List l => (l.map (fun v => wrap64 v), none)
  | .float64List l => (l.map (fun v => wrap64 (ratTrunc v)), none)
  | v =>
    if numScalarCase v then
      match assignInt64 0 v with
      | (_, some e) => (dst, some e)
      | (x, none) => (dst ++ [x], none)
    else (dst, some .badType)

/-- `assignUint64List`. -/
def assignUint64List (dst : List Nat) (val : GoVal) : List Nat × Option VErr :=
  match val with
  | .ifaceList l => fillLoop assignUint64 0 l
  | .strList l => fillLoop assignUint64 0 (l.map GoVal.str)
  | .uint64List l => (l, none)
  | .intList l => (l.map (fun v => uns64 v), none)
  | .int64List l => (l.map (fun v => uns64 v), none)
  | .uintList l => (l, none)
  | .float64List l => (l.map (fun v => uns64 (ratTrunc v)), none)
  | v =>
    if numScalarCase v then
      match assignUint64 0 v with
      | (_, some e) => (dst, some e)
      | (x, none) => (dst ++ [x], none)
    else (dst, some .badType)

/-- `assignDurationList`. -/
def assignDurationList (dst : List Int) (val : GoVal) : List Int × Option VErr :=
  match val with
  | .ifaceList l => fillLoop assignDuration 0 l
  | .strList l => fillLoop assignDuration 0 (l.map GoVal.str)
  | .durationList l => (l, none)
  | .intList l => (l, none)
  | .uintList l => (l.map (fun v => wrap64 v), none)
  | .int64List l => (l, none)
  | .uint64List l => (l.map (fun v => wrap64 v), none)
  | .float64List l => (l.map (fun v => wrap64 (ratTrunc v)), none)
  | v =>
    if durScalarCase v then
      match assignDuration 0 v with
      | (_, some e) => (dst, some e)
      | (x, none) => (dst ++ [x], none)
    else (dst, some .badType)

/-- `assignFloat64List`. -/
def assignFloat64List (dst : List Rat) (val : GoVal) : List Rat × Option VErr :=
  match val with
  | .ifaceList l => fillLoop assignFloat64 0 l
  | .strList l => fillLoop assignFloat64 0 (l.map GoVal.str)
  | .float64List l => (l, none)
  | .float32List l => (l, none)
  | .intList l => (l.map (fun v => (v : Rat)), none)
  | .uintList l => (l.map (fun v => (v : Rat)), none)
  | .int64List l => (l.map (fun v => (v : Rat)), none)
  | .uint64List l => (l.map (fun v => (v : Rat)), none)
  | v =>
    if floatScalarCase v then
      match assignFloat64 0 v with
      | (_, some e) => (dst, some e)
      | (x, none) => (dst ++ [x], none)
    else (dst, some .badType)

/-- `value.Set`: dispatch on the destination's pointer type.  The returned
`Dest` is the slot's contents after the call (Go mutates in place, so a
failing list assignment can still have replaced the slot). -/
def valueSet (d : Dest) (val : GoVal) : Dest × Option VErr :=
  match d with
  | .dString _ => (.dString (assignString val), none)
  | .dFloat64 v => let (x, e) := assignFloat64 v val; (.dFloat64 x, e)
  | .dBool v => let (x, e) := assignBool v val; (.dBool x, e)
  | .dUint v => let (x, e) := assignUint v val; (.dUint x, e)
  | .dInt v => let (x, e) := assignInt v val; (.dInt x, e)
  | .dUint64 v => let (x, e) := assignUint64 v val; (.dUint64 x, e)
  | .dInt64 v => let (x, e) := assignInt64 v val; (.dInt64 x, e)
  | .dDuration v => let (x, e) := assignDuration v val; (.dDuration x, e)
  | .dStringList v => (.dStringList (assignStringList v val), none)
  | .dFloat64List v => let (x, e) := assignFloat64List v val; (.dFloat64List x, e)
  | .dIntList v => let (x, e) := assignIntList v val; (.dIntList x, e)
  | .dUintList v => let (x, e) := assignUintList v val; (.dUintList x, e)
  | .dInt64List v => let (x, e) := assignInt64List v val; (.dInt64List x, e)
  | .dUint64List v => let (x, e) := assignUint64List v val; (.dUint64List x, e)
  | .dDurationList v => let (x, e) := assignDurationList v val; (.dDurationList x, e)

/-- `isBool`: whether the wrapped destination is a `*bool`. -/
def isBool : Dest → Bool
  | .dBool _ => true
  | _ => false

/-- `isSlice`: whether the wrapped destination is one of the slice types. -/
def isSlice : Dest → Bool
  | .dStringList _ | .dFloat64List _ | .dIntList _ | .dUintList _
  | .dInt64List _ | .dUint64List _ | .dDurationList _ => true
  | _ => false

/-- Association-list lookup, modelling a Go map read (registered names are
unique, so the first match is the only one). -/
def alookup {α : Type} : List (Str × α) → Str → Option α
  | [], _ => none
  | (k, v) :: rest, key => if k = key then some v else alookup rest key

/-- Association-list overwrite of an existing key (append when absent),
modelling a Go map write. -/
def aset {α : Type} : List (Str × α) → Str → α → List (Str × α)
  | [], key, v => [(key, v)]
  | (k, w) :: rest, key, v =>
    if k = key then (k, v) :: rest else (k, w) :: aset rest key v

/-- Set-insert into the `found` name set (`fs.found[name] = f`). -/
def finsert (l : List Str) (n : Str) : List Str :=
  if n ∈ l then l else l ++ [n]

/-- The process environment consulted by `os.LookupEnv`. -/
abbrev Environment := List (Str × Str)

/-- A `Source`: either `EnvPrefix(pre)` or `JSONVia(file)`.  The JSON source
carries the outcome `Open` would produce: reading and decoding the file
yields either an error (unreadable or undecodable) or a top-level
key-to-value map. -/
inductive Source where
  | env (pre : Str)
  | json (decode : Except Unit (List (Str × GoVal)))

/-- Runtime state of a source: the decoded map of an opened `jsonSource`
(`s.json`), `none` before `Open` (a lookup in Go's nil map finds nothing). -/
abbrev SState := Option (List (Str × GoVal))

/-- An `Extractor`: `Env(key)` or `JSON(key)`. -/
inductive Extr where
  | env (key : Str)
  | json (key : Str)

/-- `Source.Get` for both source kinds: key lookup, then `dst.Set`.
Returns the destination contents after the call together with
`(found, error)` collapsed into an `Except`. -/
def sourceGet (envr : Environment) (s : Source) (st : SState) (key : Str)
    (dst : Dest) : Dest × Except VErr Bool :=
  match s with
  | .env pre =>
    match alookup envr (pre ++ key) with
    | none => (dst, .ok false)
    | some v =>
      match valueSet dst (.str v) with
      | (d', none) => (d', .ok true)
      | (d', some e) => (d', .error e)
  | .json _ =>
    match alookup (st.getD []) key with
    | none => (dst, .ok false)
    | some v =>
      match valueSet dst v with
      | (d', none) => (d', .ok true)
      | (d', some e) => (d', .error e)

/-- `envExtractor.Get`: sources are scanned in order, non-env sources are
skipped, and the FIRST env source decides — `if err != nil || !ok` it
returns immediately, never reaching later sources.  The third component
records the indices of the sources whose `Get` was called. -/
def envExtrGet (envr : Environment) (key : Str) :
    List (Nat × Source × SState) → Dest → Dest × Except VErr Bool × List Nat
  | [], dst => (dst, .ok false, [])
  | (i, s, st) :: rest, dst =>
    match s with
    | .json _ => envExtrGet envr key rest dst
    | .env _ =>
      match sourceGet envr s st key dst with
      | (d', .error e) => (d', .error e, [i])
      | (d', .ok false) => (d', .ok false, [i])
      | (d', .ok true) => (d', .ok true, [i])

/-- `jsonExtractor.Get`: non-JSON sources are skipped; an error aborts, a
miss CONTINUES to later JSON sources, a hit stops. -/
def jsonExtrGet (envr : Environment) (key : Str) :
    List (Nat × Source × SState) → Dest → Dest × Except VErr Bool × List Nat
  | [], dst => (dst, .ok false, [])
  | (i, s, st) :: rest, dst =>
    match s with
    | .env _ => jsonExtrGet envr key rest dst
    | .json _ =>
      match sourceGet envr s st key dst with
      | (d', .error e) => (d', .error e, [i])
      | (d', .ok true) => (d', .ok true, [i])
      | (d', .ok false) =>
        let (d'', r, q) := jsonExtrGet envr key rest d'
        (d'', r, i :: q)

/-- `Extractor.Get` dispatch. -/
def extrGet (envr : Environment) (e : Extr) (sts : List (Nat × Source × SState))
    (dst : Dest) : Dest × Except VErr Bool × List Nat :=
  match e with
  | .env key => envExtrGet envr key sts dst
  | .json key => jsonExtrGet envr key sts dst

/-- A registered `Flag`: its destination slot (`Value`), default, and
extractors.  `Name` is the key of the registry list; `Usage` is only used by
help printing and is omitted. -/
structure Flag where
  value : Dest
  default : GoVal
  extractors : List Extr

/-- The `FlagSet` state: the registry (insertion-ordered, as `flagOrder`
guarantees in Go), the residual positional arguments (`fs.args`,
named `argsAcc` here to avoid clashing with parse's parameter), the `found`
name set, the one-shot `parsed` flag, and the sources stored by `Parse`. -/
structure FlagSet where
  parsed : Bool := false
  argsAcc : List Str := []
  flags : List (Str × Flag) := []
  found : List Str := []
  sources : List Source := []

/-- Parse-level errors, carrying the same data as the `fmt.Errorf` calls. -/
inductive PErr where
  | help
  | invalidSyntax (tok : Str)
  | unknownFlag (name : Str)
  | expectingValue (name : Str)
  | valueErr (e : VErr)
  | openErr
  deriving Repr, DecidableEq

/-- Split a candidate name at its FIRST `'='`
(`idx := strings.IndexRune(name, '=')`), returning the parts before and
after it.  `parseNext` only reaches this after rejecting names that start
with `'='`, so `idx > 0` in Go coincides with `eqSplit` returning `some`. -/
def eqSplit : Str → Option (Str × Str)
  | [] => none
  | c :: rest =>
    if c = '=' then some ([], rest)
    else
      match eqSplit rest with
      | none => none
      | some (a, b) => some (c :: a, b)

/-- `FlagSet.setValue`: repeated non-slice flags are silently ignored;
otherwise the string value is routed through `value.Set` (an append for
slices) and the flag is marked found.  As in Go, `found` is updated before
`Set`, and a failing `Set` may still have rewritten the slot. -/
def FlagSet.setValue (fs : FlagSet) (name : Str) (value : Str) :
    FlagSet × Option PErr :=
  if name ∈ fs.found then
    match alookup fs.flags name with
    | some f =>
      if ¬ isSlice f.value then (fs, none)
      else
        match valueSet f.value (.str value) with
        | (d', none) =>
          ({ fs with flags := aset fs.flags name { f with value := d' } }, none)
        | (d', some e) =>
          ({ fs with flags := aset fs.flags name { f with value := d' } },
            some (.valueErr e))
    | none => (fs, none)
  else
    match alookup fs.flags name with
    | none => (fs, some (.unknownFlag name))
    | some f =>
      let fs₁ := { fs with found := finsert fs.found name }
      match valueSet f.value (.str value) with
      | (d', none) =>
        ({ fs₁ with flags := aset fs₁.flags name { f with value := d' } }, none)
      | (d', some e) =>
        ({ fs₁ with flags := aset fs₁.flags name { f with value := d' } },
          some (.valueErr e))

/-- The per-flag-token body of `FlagSet.parseNext`, after the dash marker has
been stripped from `arg` yielding the candidate `name`. -/
def FlagSet.parseOne (fs : FlagSet) (arg name : Str) (args : List Str) :
    FlagSet × Except PErr (List Str) :=
  if name = [] ∨ name.head? = some '-' ∨ name.head? = some '=' then
    (fs, .error (.invalidSyntax arg))
  else if name = 'h' :: [] ∨ name = 'h' :: 'e' :: 'l' :: 'p' :: [] then
    (fs, .error .help)
  else
    match eqSplit name with
    | some (nm, value) =>
      if value = [] then (fs, .error (.invalidSyntax arg))
      else
        match fs.setValue nm value with
        | (fs', none) => (fs', .ok args)
        | (fs', some e) => (fs', .error e)
    | none =>
      match alookup fs.flags name with
      | some f =>
        if isBool f.value then
          match valueSet f.value (.boolean true) with
          | (d', none) =>
            ({ fs with
                found := finsert fs.found name,
                flags := aset fs.flags name { f with value := d' } }, .ok args)
          | (d', some e) =>
            ({ fs with
                found := finsert fs.found name,
                flags := aset fs.flags name { f with value := d' } },
              .error (.valueErr e))
        else
          match args with
          | [] => (fs, .error (.expectingValue name))
          | v :: rest =>
            if v.head? = some '-' then (fs, .error (.expectingValue name))
            else
              match fs.setValue name v with
              | (fs', none) => (fs', .ok rest)
              | (fs', some e) => (fs', .error e)
      | none => (fs, .error (.unknownFlag name))

/-- `FlagSet.parseNext`: handle one flag token (skipping and accumulating
positionals on the way), returning the remaining arguments or an error. -/
def FlagSet.parseNext (fs : FlagSet) : List Str → FlagSet × Except PErr (List Str)
  | [] => (fs, .ok [])
  | arg :: args =>
    if arg.length < 2 ∨ arg.head? ≠ some '-' then
      -- not a flag: accumulate and continue
      FlagSet.parseNext { fs with argsAcc := fs.argsAcc ++ [arg] } args
    else if arg = '-' :: '-' :: [] then
      -- `--` terminates flag scanning
      ({ fs with argsAcc := fs.argsAcc ++ args }, .ok [])
    else
      FlagSet.parseOne fs arg
        (if arg.take 2 = '-' :: '-' :: [] then arg.drop 2 else arg.drop 1) args

/-- When `parseOne` succeeds, the remainder is the untouched `args` or, when
a separate value token was consumed, its tail. -/
theorem parseOne_ok_rem (fs fs' : FlagSet) (arg name : Str) (args rem : List Str)
    (h : FlagSet.parseOne fs arg name args = (fs', .ok rem)) :
    rem = args ∨ ∃ v r, args = v :: r ∧ rem = r := by
  unfold FlagSet.parseOne at h
  repeat' split at h
  all_goals
    simp only [Prod.mk.injEq, Except.ok.injEq, reduceCtorEq, and_false] at h
  all_goals
    first
    | exact Or.inl h.2.symm
    | exact Or.inr ⟨_, _, rfl, h.2.symm⟩

/-- `parseNext` consumes at least one token whenever it returns a remainder
on a nonempty input (each returned remainder is a proper suffix). -/
theorem parseNext_ok_length : ∀ (args : List Str) (fs fs' : FlagSet) (rem : List Str),
    FlagSet.parseNext fs args = (fs', .ok rem) →
    rem.length < args.length ∨ args = []
  | [], _, _, _, _ => Or.inr rfl
  | arg :: rest, fs, fs', rem, h => by
    refine Or.inl ?_
    rw [FlagSet.parseNext] at h
    split at h
    · rcases parseNext_ok_length rest _ _ _ h with h2 | h2
      · exact Nat.lt_succ_of_lt h2
      · subst h2
        rw [FlagSet.parseNext] at h
        simp only [Prod.mk.injEq, Except.ok.injEq] at h
        simp [← h.2]
    · split at h
      · simp only [Prod.mk.injEq, Except.ok.injEq] at h
        simp [← h.2]
      · rcases parseOne_ok_rem _ _ _ _ _ _ h with h2 | ⟨v, r, h2, h3⟩
        · simp [h2]
        · subst h2
          subst h3
          simp
          omega

/-- The `for` loop of `Parse`: repeatedly call `parseNext` until the
remaining argument list is empty (break) or an error is returned.  The loop
always terminates because each iteration strictly shrinks the remainder
(`parseNext_ok_length`); it is modelled with explicit fuel, for which `Parse`
supplies the sufficient bound `args.length + 1`. -/
def FlagSet.parseLoop (fs : FlagSet) : Nat → List Str → FlagSet × Option PErr
  | 0, _ => (fs, none)
  | fuel + 1, args =>
    match FlagSet.parseNext fs args with
    | (fs', .error e) => (fs', some e)
    | (fs', .ok rem) =>
      if rem = [] then (fs', none)
      else FlagSet.parseLoop fs' fuel rem

/-- Trace events: `Source.Open` / `Source.Close` calls, `Source.Get` queries
issued by a flag's extractors, and default-value applications. -/
inductive Ev where
  | openEv (i : Nat)
  | closeEv (i : Nat)
  | getEv (flag : Str) (src : Nat)
  | defaultEv (flag : Str)
  deriving Repr, DecidableEq

/-- `Source.Open`: a no-op for env sources; for a JSON source, reading and
decoding the file (its prepared outcome). -/
def sourceOpen : Source → Except Unit SState
  | .env _ => .ok none
  | .json (.error _) => .error ()
  | .json (.ok m) => .ok (some m)

/-- The `for _, s := range sources { s.Open() }` loop: open in order, stop at
the first failure.  Emits one open event per attempted `Open`. -/
def openAllFrom (i : Nat) : List Source → List Ev × Except Unit (List SState)
  | [] => ([], .ok [])
  | s :: rest =>
    match sourceOpen s with
    | .error e => ([.openEv i], .error e)
    | .ok st =>
      match openAllFrom (i + 1) rest with
      | (evs, .error e) => (.openEv i :: evs, .error e)
      | (evs, .ok sts) => (.openEv i :: evs, .ok (st :: sts))

/-- The deferred `for _, s := range sources { s.Close() }`: every source is
closed, in order, opened or not. -/
def closeAll (n : Nat) : List Ev :=
  (List.range n).map Ev.closeEv

/-- Pair each source with its state and its position in the source list. -/
def enumSources (srcs : List Source) (sts : List SState) :
    List (Nat × Source × SState) :=
  (srcs.zip sts).enum

/-- The `for _, e := range f.Extractors` loop: ask each extractor in declared
order; the first affirmative match wins, an error aborts. -/
def runExtractors (envr : Environment) (exs : List Extr)
    (sts : List (Nat × Source × SState)) (dst : Dest) :
    Dest × Except VErr Bool × List Nat :=
  match exs with
  | [] => (dst, .ok false, [])
  | e :: rest =>
    match extrGet envr e sts dst with
    | (d', .error er, q) => (d', .error er, q)
    | (d', .ok true, q) => (d', .ok true, q)
    | (d', .ok false, q) =>
      let (d'', r, q') := runExtractors envr rest sts d'
      (d'', r, q ++ q')

/-- The source-resolution loop of `Parse` over the registry: flags already
`found` are skipped entirely; otherwise the extractors are consulted and, if
none matches, the flag is marked found and its default applied through
`value.Set`.  (The Go loop ranges over the `fs.flags` map in unspecified
order; the model iterates in registration order, to which the claims settled
here are insensitive.) -/
def FlagSet.resolveFlags (envr : Environment) (fs : FlagSet)
    (fl : List (Str × Flag)) (sts : List (Nat × Source × SState)) :
    FlagSet × Option PErr × List Ev :=
  match fl with
  | [] => (fs, none, [])
  | (name, _) :: rest =>
    if name ∈ fs.found then FlagSet.resolveFlags envr fs rest sts
    else
      match alookup fs.flags name with
      | none => FlagSet.resolveFlags envr fs rest sts
      | some f =>
        match runExtractors envr f.extractors sts f.value with
        | (d', .error e, q) =>
          ({ fs with flags := aset fs.flags name { f with value := d' } },
            some (.valueErr e), q.map (Ev.getEv name))
        | (d', .ok true, q) =>
          ((FlagSet.resolveFlags envr
              { fs with flags := aset fs.flags name { f with value := d' } } rest sts).1,
           (FlagSet.resolveFlags envr
              { fs with flags := aset fs.flags name { f with value := d' } } rest sts).2.1,
           q.map (Ev.getEv name) ++
             (FlagSet.resolveFlags envr
              { fs with flags := aset fs.flags name { f with value := d' } } rest sts).2.2)
        | (d', .ok false, q) =>
          match valueSet d' f.default with
          | (d'', none) =>
            ((FlagSet.resolveFlags envr
                { fs with
                  found := finsert fs.found name,
                  flags := aset fs.flags name { f with value := d'' } } rest sts).1,
             (FlagSet.resolveFlags envr
                { fs with
                  found := finsert fs.found name,
                  flags := aset fs.flags name { f with value := d'' } } rest sts).2.1,
             q.map (Ev.getEv name) ++ [Ev.defaultEv name] ++
               (FlagSet.resolveFlags envr
                { fs with
                  found := finsert fs.found name,
                  flags := aset fs.flags name { f with value := d'' } } rest sts).2.2)
          | (d'', some e) =>
            ({ fs with
                found := finsert fs.found name,
                flags := aset fs.flags name { f with value := d'' } },
              some (.valueErr e), q.map (Ev.getEv name) ++ [Ev.defaultEv name])

/-- `FlagSet.Parse` under the `ContinueOnError` policy (the zero value, used
throughout the package's tests; the other policies exit or panic the process
after printing and are outside the embedded core).  Returns the final state,
`Parse`'s returned error (`none` = nil), and the source/extractor event
trace.  Note the deferred `Close` loop is only registered AFTER tokenization
succeeds, exactly as in the Go source. -/
def FlagSet.parse (envr : Environment) (fs : FlagSet) (args : List Str)
    (srcs : List Source) : FlagSet × Option PErr × List Ev :=
  if fs.parsed then (fs, none, [])
  else
    match FlagSet.parseLoop { fs with parsed := true, sources := srcs }
        (args.length + 1) args with
    | (fs₁, some e) => (fs₁, some e, [])
    | (fs₁, none) =>
      match openAllFrom 0 srcs with
      | (evs, .error _) => (fs₁, some .openErr, evs ++ closeAll srcs.length)
      | (evs, .ok sts) =>
        match FlagSet.resolveFlags envr fs₁ fs₁.flags (enumSources srcs sts) with
        | (fs₂, r, evs₂) => (fs₂, r, evs ++ evs₂ ++ closeAll srcs.length)

/-- A one-flag set for exercising `c3_cli_value_wins` concretely: a boolean
flag `b` with an env extractor fallback. -/
def c3fs0 : FlagSet :=
  { flags := [((('b' :: []) : Str),
      { value := .dBool false, default := .boolean false,
        extractors := [Extr.env ('b' :: [])] })] }

/-- The state after tokenizing `-b` against `c3fs0`. -/
def c3fs1 : FlagSet :=
  (FlagSet.parseLoop { c3fs0 with parsed := true, sources := [Source.env []] }
    2 [['-', 'b']]).1

/-- A one-flag set for exercising the source lifecycle concretely: a boolean
flag `b` with no extractors (its default is applied by resolution). -/
def c6fs0 : FlagSet :=
  { flags := [((('b' :: []) : Str),
      { value := .dBool false, default := .boolean true, extractors := [] })] }

/-- The state after tokenizing no arguments against `c6fs0`. -/
def c6fs1 : FlagSet :=
  (FlagSet.parseLoop { c6fs0 with parsed := true, sources := [Source.env []] }
    1 []).1

/-- Element-wise coercion of the value strings a run of command-line
occurrences supplies, in occurrence order, by a per-kind string parser. -/
def mapAll {β : Type} (p : Str → Option β) : List Str → Option (List β)
  | [] => some []
  | v :: rest =>
    match p v, mapAll p rest with
    | some n, some l => some (n :: l)
    | _, _ => none

/-- Iterated `value.Set` of scalar string values onto a destination — the
coercion work a sequence of command-line occurrences of one flag performs
(each occurrence routes its value string through `Set`, which appends for
slice destinations); `none` when some element's coercion fails. -/
def appendAll (d : Dest) : List Str → Option Dest
  | [] => some d
  | v :: rest =>
    match valueSet d (.str v) with
    | (d2, none) => appendAll d2 rest
    | (_, some _) => none

/-- The command-line tokens of one occurrence of flag `name` carrying value
`v`: inline (`-name=v`, one token) or a separate value token (`-name v`). -/
def occToks (name : Str) : Str × Bool → List Str
  | (v, true) => [('-' :: name) ++ '=' :: v]
  | (v, false) => [('-' :: name), v]

/-- `(args, nil)` or the error, as `parseOne` repackages `setValue`'s
outcome. -/
def okOr (args : List Str) : Option PErr → Except PErr (List Str)
  | none => .ok args
  | some e => .error e

/-- The element list a generic-sequence value carries into the
`make`-then-fill loops: the `[]interface{}` elements directly, a `[]string`
as its elements wrapped as string values (`fillLoop` receives them so in
both `assign*List` branches). -/
def seqVals : GoVal → Option (List GoVal)
  | .ifaceList l => some l
  | .strList l => some (l.map GoVal.str)
  | _ => none

/-- The partially-converted-slice shape the `make`-then-fill loops leave on
failure: the input splits as a successfully converted prefix, the first
failing element, and a remainder; the slot holds the converted prefix
followed by zeros for the failing slot and everything after it (the
zero-filled `make` result was filled only up to the failure). -/
def zeroFill : Dest → List GoVal → Dest → VErr → Prop
  | .dIntList _, elems, d', e => ∃ l₁ x l₂, elems = l₁ ++ x :: l₂ ∧
      (∀ y ∈ l₁, (assignInt 0 y).2 = none) ∧
      (assignInt 0 x).2 = some e ∧
      d' = .dIntList (l₁.map (fun y => (assignInt 0 y).1) ++
        List.replicate (l₂.length + 1) 0)
  | .dUintList _, elems, d', e => ∃ l₁ x l₂, elems = l₁ ++ x :: l₂ ∧
      (∀ y ∈ l₁, (assignUint 0 y).2 = none) ∧
      (assignUint 0 x).2 = some e ∧
      d' = .dUintList (l₁.map (fun y => (assignUint 0 y).1) ++
        List.replicate (l₂.length + 1) 0)
  | .dInt64List _, elems, d', e => ∃ l₁ x l₂, elems = l₁ ++ x :: l₂ ∧
      (∀ y ∈ l₁, (assignInt64 0 y).2 = none) ∧
      (assignInt64 0 x).2 = some e ∧
      d' = .dInt64List (l₁.map (fun y => (assignInt64 0 y).1) ++
        List.replicate (l₂.length + 1) 0)
  | .dUint64List _, elems, d', e => ∃ l₁ x l₂, elems = l₁ ++ x :: l₂ ∧
      (∀ y ∈ l₁, (assignUint64 0 y).2 = none) ∧
      (assignUint64 0 x).2 = some e ∧
      d' = .dUint64List (l₁.map (fun y => (assignUint64 0 y).1) ++
        List.replicate (l₂.length + 1) 0)
  | .dDurationList _, elems, d', e => ∃ l₁ x l₂, elems = l₁ ++ x :: l₂ ∧
      (∀ y ∈ l₁, (assignDuration 0 y).2 = none) ∧
      (assignDuration 0 x).2 = some e ∧
      d' = .dDurationList (l₁.map (fun y => (assignDuration 0 y).1) ++
        List.replicate (l₂.length + 1) 0)
  | .dFloat64List _, elems, d', e => ∃ l₁ x l₂, elems = l₁ ++ x :: l₂ ∧
      (∀ y ∈ l₁, (assignFloat64 0 y).2 = none) ∧
      (assignFloat64 0 x).2 = some e ∧
      d' = .dFloat64List (l₁.map (fun y => (assignFloat64 0 y).1) ++
        List.replicate (l₂.length + 1) 0)
  | _, _, _, _ => False

/-! ## Helper lemmas -/

theorem alookup_aset_self {α : Type} (l : List (Str × α)) (k : Str) (v : α) :
    alookup (aset l k v) k = some v := by
  induction l with
  | nil => simp [aset, alookup]
  | cons p rest ih =>
    rcases p with ⟨pk, pv⟩
    by_cases h : pk = k
    · simp [aset, alookup, h]
    · simp [aset, alookup, h, ih]

theorem alookup_aset_ne {α : Type} (l : List (Str × α)) (k k' : Str) (v : α)
    (h : k ≠ k') : alookup (aset l k v) k' = alookup l k' := by
  induction l with
  | nil => simp [aset, alookup, h]
  | cons p rest ih =>
    rcases p with ⟨pk, pv⟩
    by_cases hp : pk = k
    · subst hp
      simp [aset, alookup, h, Ne.symm h, ih]
    · by_cases hp' : pk = k'
      · subst hp'
        simp [aset, alookup, hp, Ne.symm h]
      · simp [aset, alookup, hp, hp', ih]

theorem aset_aset {α : Type} (l : List (Str × α)) (k : Str) (v w : α) :
    aset (aset l k v) k w = aset l k w := by
  induction l with
  | nil => simp [aset]
  | cons p rest ih =>
    rcases p with ⟨pk, pv⟩
    by_cases h : pk = k
    · simp [aset, h]
    · simp [aset, h, ih]

theorem aset_eq_self {α : Type} (l : List (Str × α)) (k : Str) (v : α)
    (h : alookup l k = some v) : aset l k v = l := by
  induction l with
  | nil => simp [alookup] at h
  | cons p rest ih =>
    rcases p with ⟨pk, pv⟩
    by_cases hp : pk = k
    · subst hp
      simp [alookup] at h
      simp [aset, h]
    · simp [alookup, hp] at h
      simp [aset, hp, ih h]

theorem mem_finsert_self (l : List Str) (n : Str) : n ∈ finsert l n := by
  unfold finsert
  split
  · assumption
  · simp

theorem mem_finsert_of_mem (l : List Str) (n m : Str) (h : m ∈ l) :
    m ∈ finsert l n := by
  unfold finsert
  split
  · exact h
  · simp [h]

theorem finsert_of_mem (l : List Str) (n : Str) (h : n ∈ l) :
    finsert l n = l := by
  simp [finsert, h]

/-! ## Preservation of the `parsed` flag by the tokenizer -/

theorem setValue_parsed (fs fs' : FlagSet) (name value : Str) (e : Option PErr)
    (h : fs.setValue name value = (fs', e)) : fs'.parsed = fs.parsed := by
  unfold FlagSet.setValue at h
  repeat' split at h
  all_goals (cases h; rfl)

theorem parseOne_parsed (fs fs' : FlagSet) (arg name : Str)
    (args : List Str) (r : Except PErr (List Str))
    (h : fs.parseOne arg name args = (fs', r)) : fs'.parsed = fs.parsed := by
  unfold FlagSet.parseOne at h
  repeat' split at h
  all_goals
    first
    | (cases h; rfl)
    | (rename_i heq
       cases h
       exact setValue_parsed _ _ _ _ _ heq)

theorem parseNext_parsed : ∀ (args : List Str) (fs fs' : FlagSet)
    (r : Except PErr (List Str)), fs.parseNext args = (fs', r) →
    fs'.parsed = fs.parsed
  | [], fs, fs', r, h => by cases h; rfl
  | arg :: rest, fs, fs', r, h => by
    rw [FlagSet.parseNext] at h
    split at h
    · have h2 := parseNext_parsed rest _ _ _ h
      simpa using h2
    · split at h
      · cases h; rfl
      · exact parseOne_parsed _ _ _ _ _ _ h

theorem parseLoop_parsed : ∀ (fuel : Nat) (args : List Str) (fs fs' : FlagSet)
    (r : Option PErr), fs.parseLoop fuel args = (fs', r) →
    fs'.parsed = fs.parsed
  | 0, args, fs, fs', r, h => by cases h; rfl
  | fuel + 1, args, fs, fs', r, h => by
    rw [FlagSet.parseLoop] at h
    split at h
    · cases h
      rename_i heq
      exact parseNext_parsed _ _ _ _ heq
    · rename_i fs₂ rem heq
      split at h
      · cases h
        exact parseNext_parsed _ _ _ _ heq
      · rw [parseLoop_parsed fuel rem fs₂ fs' r h]
        exact parseNext_parsed _ _ _ _ heq

theorem triple_eta {α β γ : Type} (p : α × β × γ) : p = (p.1, p.2.1, p.2.2) := rfl

theorem resolveFlags_parsed : ∀ (fl : List (Str × Flag)) (envr : Environment)
    (fs fs' : FlagSet) (sts : List (Nat × Source × SState)) (r : Option PErr)
    (evs : List Ev), fs.resolveFlags envr fl sts = (fs', r, evs) →
    fs'.parsed = fs.parsed
  | [], _, fs, fs', _, r, evs, h => by
    unfold FlagSet.resolveFlags at h
    cases h
    rfl
  | (name, g) :: rest, envr, fs, fs', sts, r, evs, h => by
    unfold FlagSet.resolveFlags at h
    split at h
    · exact resolveFlags_parsed rest _ _ _ _ _ _ h
    · split at h
      · exact resolveFlags_parsed rest _ _ _ _ _ _ h
      · split at h
        · cases h; rfl
        · cases h
          rename_i f hreg x d' q hrun
          exact resolveFlags_parsed rest envr
            { fs with flags := aset fs.flags name { f with value := d' } } _ sts _ _
            (triple_eta _)
        · split at h
          · cases h
            rename_i f hreg x d' q hrun y d'' hset
            exact resolveFlags_parsed rest envr
              { fs with
                found := finsert fs.found name,
                flags := aset fs.flags name { f with value := d'' } } _ sts _ _
              (triple_eta _)
          · cases h; rfl

/-! ## Claims -/

/-- Every `Parse` call leaves `fs.parsed = true`: it is the first mutation on
every path that does any work. -/
theorem parse_sets_parsed (envr : Environment) (fs : FlagSet) (args : List Str)
    (srcs : List Source) : (FlagSet.parse envr fs args srcs).1.parsed = true := by
  unfold FlagSet.parse
  by_cases hp : fs.parsed = true
  · simp [hp]
  · rw [if_neg hp]
    rcases hL : FlagSet.parseLoop { fs with parsed := true, sources := srcs }
        (args.length + 1) args with ⟨fs₁, e?⟩
    have h2 := parseLoop_parsed _ _ _ _ _ hL
    cases e? with
    | some e => simpa using h2
    | none =>
      dsimp only
      rcases hO : openAllFrom 0 srcs with ⟨evs, r⟩
      cases r with
      | error e => simpa using h2
      | ok sts =>
        dsimp only
        rcases hR : FlagSet.resolveFlags envr fs₁ fs₁.flags (enumSources srcs sts)
          with ⟨fs₂, r₂, evs₂⟩
        have h3 := resolveFlags_parsed _ _ _ _ _ _ _ hR
        dsimp only
        rw [h3]
        simpa using h2

/-- C9: once a `FlagSet` has been parsed, a second `Parse` call — with any
arguments and sources — is a no-op: it returns nil, performs no source
activity, and leaves the entire state exactly as the first call left it.
This holds regardless of what the first call returned, because `Parse` sets
`fs.parsed` before doing anything else on every path. -/
theorem c9_parse_idempotent (envr envr' : Environment) (fs : FlagSet)
    (args args' : List Str) (srcs srcs' : List Source) :
    (FlagSet.parse envr fs args srcs).1.parsed = true ∧
    FlagSet.parse envr' (FlagSet.parse envr fs args srcs).1 args' srcs'
      = ((FlagSet.parse envr fs args srcs).1, none, []) := by
  refine ⟨parse_sets_parsed envr fs args srcs, ?_⟩
  have h1 := parse_sets_parsed envr fs args srcs
  set X := (FlagSet.parse envr fs args srcs).1 with hX
  unfold FlagSet.parse
  rw [if_pos h1]

theorem eqSplit_append (n : Str) (v : Str) (h : '=' ∉ n) :
    eqSplit (n ++ '=' :: v) = some (n, v) := by
  induction n with
  | nil => rfl
  | cons c m ih =>
    simp only [List.mem_cons, not_or] at h
    simp [eqSplit, Ne.symm h.1, ih h.2]

theorem eqSplit_none (n : Str) (h : '=' ∉ n) : eqSplit n = none := by
  induction n with
  | nil => rfl
  | cons c m ih =>
    simp only [List.mem_cons, not_or] at h
    simp [eqSplit, Ne.symm h.1, ih h.2]

/-- `parseOne` on a candidate name with a trailing `'='` (and no other `'='`)
always fails with `invalid flag syntax` carrying the full token, without
touching the state. -/
theorem parseOne_trailing_eq (fs : FlagSet) (arg : Str) (n : Str)
    (args : List Str) (hno : '=' ∉ n) :
    fs.parseOne arg (n ++ '=' :: []) args = (fs, .error (.invalidSyntax arg)) := by
  have hmem : '=' ∈ n ++ '=' :: [] := by simp
  unfold FlagSet.parseOne
  split
  · rfl
  · split
    · rename_i hhelp
      exfalso
      rcases hhelp with h | h <;> (rw [h] at hmem; simp at hmem)
    · rw [eqSplit_append n [] hno]
      simp

/-- C8: every token of the shape `-name=` or `--name=` — an inline `'='`
whose value part is empty — makes the tokenizer fail with the
`invalid flag syntax` error carrying the literal offending token, and no
flag state (destinations, found set, positionals) is modified. -/
theorem c8_empty_inline_value (fs : FlagSet) (n : Str) (rest : List Str)
    (hno : '=' ∉ n) (hd : n.head? ≠ some '-') :
    FlagSet.parseNext fs (('-' :: (n ++ '=' :: [])) :: rest)
        = (fs, .error (.invalidSyntax ('-' :: (n ++ '=' :: [])))) ∧
    FlagSet.parseNext fs (('-' :: '-' :: (n ++ '=' :: [])) :: rest)
        = (fs, .error (.invalidSyntax ('-' :: '-' :: (n ++ '=' :: [])))) := by
  constructor
  · cases n with
    | nil => rfl
    | cons c m =>
      have hc : c ≠ '-' := by simpa using hd
      rw [FlagSet.parseNext]
      rw [if_neg (by simp)]
      rw [if_neg (by simp [hc])]
      rw [if_neg (by simp [hc])]
      exact parseOne_trailing_eq fs _ (c :: m) rest hno
  · rw [FlagSet.parseNext]
    rw [if_neg (by simp)]
    rw [if_neg (by simp)]
    rw [if_pos (by simp)]
    exact parseOne_trailing_eq fs _ n rest hno

/-- Witness for `c8_empty_inline_value` at the spec's own scenario, the
token `"-x="`. -/
theorem c8_empty_inline_value_witness :
    ('=' ∉ ('x' :: [])) ∧ (('x' :: []) : Str).head? ≠ some '-' ∧
    FlagSet.parseNext {} [('-' :: 'x' :: '=' :: [])]
      = ({}, .error (.invalidSyntax ('-' :: 'x' :: '=' :: []))) := by
  refine ⟨by decide, by decide, ?_⟩
  have h := (c8_empty_inline_value {} ('x' :: []) [] (by decide) (by decide)).1
  exact h

/-- `parseOne` on a bare (no inline value) name that resolves to a
boolean-typed flag and is not a help alias: the flag is marked found, its
destination is set to the literal `true`, and `args` is returned untouched —
no value token is consumed. -/
theorem parseOne_bare_bool (fs : FlagSet) (arg name : Str) (args : List Str)
    (f : Flag) (b : Bool)
    (hreg : alookup fs.flags name = some f)
    (hval : f.value = .dBool b)
    (hne : name ≠ [])
    (hh1 : name ≠ 'h' :: [])
    (hh2 : name ≠ 'h' :: 'e' :: 'l' :: 'p' :: [])
    (hd : name.head? ≠ some '-')
    (hee : name.head? ≠ some '=')
    (heq : '=' ∉ name) :
    fs.parseOne arg name args
      = ({ fs with
            found := finsert fs.found name,
            flags := aset fs.flags name { f with value := .dBool true } },
         .ok args) := by
  unfold FlagSet.parseOne
  rw [if_neg (by simp [hne, hd, hee])]
  rw [if_neg (by simp [hh1, hh2])]
  rw [eqSplit_none name heq]
  dsimp only
  rw [hreg]
  dsimp only
  rw [hval]
  rfl

/-- `parseNext` on a bare `-name` / `--name` token of a registered
boolean-typed flag whose name is not a help alias: sets the destination to
`true` and consumes no following token. -/
theorem parseNext_bare_bool (fs : FlagSet) (name : Str) (rest : List Str)
    (f : Flag) (b : Bool)
    (hreg : alookup fs.flags name = some f)
    (hval : f.value = .dBool b)
    (hne : name ≠ [])
    (hh1 : name ≠ 'h' :: [])
    (hh2 : name ≠ 'h' :: 'e' :: 'l' :: 'p' :: [])
    (hd : name.head? ≠ some '-')
    (hee : name.head? ≠ some '=')
    (heq : '=' ∉ name) :
    FlagSet.parseNext fs (('-' :: name) :: rest)
      = ({ fs with
            found := finsert fs.found name,
            flags := aset fs.flags name { f with value := .dBool true } },
         .ok rest) ∧
    FlagSet.parseNext fs (('-' :: '-' :: name) :: rest)
      = ({ fs with
            found := finsert fs.found name,
            flags := aset fs.flags name { f with value := .dBool true } },
         .ok rest) := by
  constructor
  · cases name with
    | nil => exact absurd rfl hne
    | cons c m =>
      have hc : c ≠ '-' := by simpa using hd
      rw [FlagSet.parseNext]
      rw [if_neg (by simp)]
      rw [if_neg (by simp [hc])]
      rw [if_neg (by simp [hc])]
      exact parseOne_bare_bool fs _ _ rest f b hreg hval hne hh1 hh2 hd hee heq
  · rw [FlagSet.parseNext]
    rw [if_neg (by simp)]
    rw [if_neg (by simp [hne])]
    rw [if_pos (by simp)]
    exact parseOne_bare_bool fs _ _ rest f b hreg hval hne hh1 hh2 hd hee heq

/-- C1 counterexample: a flag registered as boolean under the name `h`,
supplied as the bare token `-h`, does NOT get its destination set to true —
`Parse` stops with the distinguished help signal (checked before registry
resolution) and the destination stays `false`. -/
theorem c1_counterexample :
    (FlagSet.parse [] { flags := [('h' :: [], ⟨.dBool false, .boolean false, []⟩)] }
        [('-' :: 'h' :: [])] []).2.1 = some .help ∧
    (alookup (FlagSet.parse []
        { flags := [('h' :: [], ⟨.dBool false, .boolean false, []⟩)] }
        [('-' :: 'h' :: [])] []).1.flags ('h' :: [])).map Flag.value
      = some (.dBool false) :=
  ⟨rfl, rfl⟩

/-- C1 (amended): for every flag registered as boolean whose name is not one
of the help aliases (`h`, `help`), whenever the tokenizer processes a bare
`-name` or `--name` token for it, the destination is set to the literal
`true` and the following token is not consumed — the remaining argument list
is returned untouched, regardless of what the next token looks like. -/
theorem c1_bare_bool_sets_true (fs : FlagSet) (name : Str) (rest : List Str)
    (f : Flag) (b : Bool)
    (hreg : alookup fs.flags name = some f)
    (hval : f.value = .dBool b)
    (hne : name ≠ [])
    (hh1 : name ≠ 'h' :: [])
    (hh2 : name ≠ 'h' :: 'e' :: 'l' :: 'p' :: [])
    (hd : name.head? ≠ some '-')
    (hee : name.head? ≠ some '=')
    (heq : '=' ∉ name) :
    FlagSet.parseNext fs (('-' :: name) :: rest)
      = ({ fs with
            found := finsert fs.found name,
            flags := aset fs.flags name { f with value := .dBool true } },
         .ok rest) ∧
    FlagSet.parseNext fs (('-' :: '-' :: name) :: rest)
      = ({ fs with
            found := finsert fs.found name,
            flags := aset fs.flags name { f with value := .dBool true } },
         .ok rest) :=
  parseNext_bare_bool fs name rest f b hreg hval hne hh1 hh2 hd hee heq

/-- Witness for `c1_bare_bool_sets_true`: flag `b`, token `-b` followed by a
dash-shaped token that is left untouched. -/
theorem c1_bare_bool_sets_true_witness :
    FlagSet.parseNext { flags := [('b' :: [], ⟨.dBool false, .boolean false, []⟩)] }
        [('-' :: 'b' :: []), ('-' :: 'v' :: [])]
      = ({ flags := [('b' :: [], ⟨.dBool true, .boolean false, []⟩)],
           found := ('b' :: []) :: [] },
         .ok [('-' :: 'v' :: [])]) := by
  have h := (c1_bare_bool_sets_true
      { flags := [('b' :: [], ⟨.dBool false, .boolean false, []⟩)] }
      ('b' :: []) [('-' :: 'v' :: [])] ⟨.dBool false, .boolean false, []⟩ false
      rfl rfl (by decide) (by decide) (by decide) (by decide) (by decide)
      (by decide)).1
  exact h

theorem head?_append_ne {n : Str} (v : Str) (h : n ≠ []) :
    (n ++ v).head? = n.head? := by
  cases n with
  | nil => exact absurd rfl h
  | cons c m => rfl

/-- `parseOne` on an inline `name=value` token with nonempty value: the
result is whatever `setValue` makes of it, with no further token consumed. -/
theorem parseOne_inline (fs fs' : FlagSet) (arg name v : Str) (args : List Str)
    (e? : Option PErr)
    (hne : name ≠ [])
    (hd : name.head? ≠ some '-')
    (hee : name.head? ≠ some '=')
    (heq : '=' ∉ name)
    (hv : v ≠ [])
    (hsv : fs.setValue name v = (fs', e?)) :
    fs.parseOne arg (name ++ '=' :: v) args = (fs', okOr args e?) := by
  have hmem : '=' ∈ name ++ '=' :: v := by simp
  unfold FlagSet.parseOne
  rw [if_neg (by simp [head?_append_ne ('=' :: v) hne, hd, hee, hne])]
  rw [if_neg (by
    intro hh
    rcases hh with h | h <;> (rw [h] at hmem; simp at hmem))]
  rw [eqSplit_append name v heq]
  dsimp only
  rw [if_neg hv, hsv]
  cases e? <;> rfl

/-- `parseOne` on a bare name of a known non-boolean flag followed by a
value token (not dash-led): the value token is consumed and routed through
`setValue`. -/
theorem parseOne_sep_value (fs fs' : FlagSet) (arg name v : Str)
    (args : List Str) (f : Flag) (e? : Option PErr)
    (hne : name ≠ [])
    (hh1 : name ≠ 'h' :: [])
    (hh2 : name ≠ 'h' :: 'e' :: 'l' :: 'p' :: [])
    (hd : name.head? ≠ some '-')
    (hee : name.head? ≠ some '=')
    (heq : '=' ∉ name)
    (hreg : alookup fs.flags name = some f)
    (hb : isBool f.value = false)
    (hv : v.head? ≠ some '-')
    (hsv : fs.setValue name v = (fs', e?)) :
    fs.parseOne arg name (v :: args) = (fs', okOr args e?) := by
  unfold FlagSet.parseOne
  rw [if_neg (by simp [hne, hd, hee])]
  rw [if_neg (by simp [hh1, hh2])]
  rw [eqSplit_none _ heq]
  dsimp only
  rw [hreg]
  dsimp only
  rw [if_neg (by simp [hb])]
  rw [if_neg hv, hsv]
  cases e? <;> rfl

/-- `parseNext` on an inline `-name=value` / `--name=value` token. -/
theorem parseNext_inline (fs fs' : FlagSet) (name v : Str) (rest : List Str)
    (e? : Option PErr)
    (hne : name ≠ [])
    (hd : name.head? ≠ some '-')
    (hee : name.head? ≠ some '=')
    (heq : '=' ∉ name)
    (hv : v ≠ [])
    (hsv : fs.setValue name v = (fs', e?)) :
    FlagSet.parseNext fs ((('-' :: name) ++ '=' :: v) :: rest)
      = (fs', okOr rest e?) ∧
    FlagSet.parseNext fs ((('-' :: '-' :: name) ++ '=' :: v) :: rest)
      = (fs', okOr rest e?) := by
  constructor
  · cases name with
    | nil => exact absurd rfl hne
    | cons c m =>
      have hc : c ≠ '-' := by simpa using hd
      rw [FlagSet.parseNext]
      rw [if_neg (by simp)]
      rw [if_neg (by simp [hc])]
      rw [if_neg (by simp [hc])]
      exact parseOne_inline fs fs' _ (c :: m) v rest e? hne hd hee heq hv hsv
  · rw [FlagSet.parseNext]
    rw [if_neg (by simp)]
    rw [if_neg (by simp)]
    rw [if_pos (by simp)]
    exact parseOne_inline fs fs' _ name v rest e? hne hd hee heq hv hsv

/-- C5 counterexample: boolean flag `b` with the arguments
`["-b=false", "-b"]`.  The first (inline) occurrence assigns `false`; the
later bare occurrence is NOT ignored — it rewrites the destination to
`true`, so the first assignment does not win. -/
theorem c5_counterexample :
    ((FlagSet.parse [] { flags := [('b' :: [], ⟨.dBool false, .boolean false, []⟩)] }
        [('-' :: 'b' :: '=' :: 'f' :: 'a' :: 'l' :: 's' :: 'e' :: [])] []).2.1 = none ∧
      (alookup (FlagSet.parse []
        { flags := [('b' :: [], ⟨.dBool false, .boolean false, []⟩)] }
        [('-' :: 'b' :: '=' :: 'f' :: 'a' :: 'l' :: 's' :: 'e' :: [])] []).1.flags
        ('b' :: [])).map Flag.value = some (.dBool false)) ∧
    ((FlagSet.parse [] { flags := [('b' :: [], ⟨.dBool false, .boolean false, []⟩)] }
        [('-' :: 'b' :: '=' :: 'f' :: 'a' :: 'l' :: 's' :: 'e' :: []),
         ('-' :: 'b' :: [])] []).2.1 = none ∧
      (alookup (FlagSet.parse []
        { flags := [('b' :: [], ⟨.dBool false, .boolean false, []⟩)] }
        [('-' :: 'b' :: '=' :: 'f' :: 'a' :: 'l' :: 's' :: 'e' :: []),
         ('-' :: 'b' :: [])] []).1.flags
        ('b' :: [])).map Flag.value = some (.dBool true)) :=
  ⟨⟨rfl, rfl⟩, ⟨rfl, rfl⟩⟩

/-- C5 (amended): for a scalar (non-list) flag already marked found, every
later occurrence that supplies a VALUE — through `setValue`, whether from an
inline `=` or a separate value token — is silently ignored: no error, no
change to any state (the separate value token is still consumed).  The one
exception is a later bare occurrence of a boolean flag, which
unconditionally re-sets the destination to the literal `true`. -/
theorem c5_repeated_scalar_first_wins (fs : FlagSet) (name : Str) (f : Flag)
    (hfound : name ∈ fs.found)
    (hreg : alookup fs.flags name = some f)
    (hns : isSlice f.value = false)
    (hne : name ≠ [])
    (hh1 : name ≠ 'h' :: [])
    (hh2 : name ≠ 'h' :: 'e' :: 'l' :: 'p' :: [])
    (hd : name.head? ≠ some '-')
    (hee : name.head? ≠ some '=')
    (heq : '=' ∉ name) :
    (∀ v : Str, fs.setValue name v = (fs, none)) ∧
    (∀ (v : Str) (rest : List Str), v ≠ [] →
      FlagSet.parseNext fs ((('-' :: name) ++ '=' :: v) :: rest) = (fs, .ok rest)) ∧
    (∀ (v : Str) (rest : List Str), isBool f.value = false → v.head? ≠ some '-' →
      FlagSet.parseNext fs (('-' :: name) :: v :: rest) = (fs, .ok rest)) ∧
    (∀ (rest : List Str) (b : Bool), f.value = .dBool b →
      FlagSet.parseNext fs (('-' :: name) :: rest)
        = ({ fs with
              flags := aset fs.flags name { f with value := .dBool true } },
           .ok rest)) := by
  have hsv : ∀ v : Str, fs.setValue name v = (fs, none) := by
    intro v
    unfold FlagSet.setValue
    rw [if_pos hfound, hreg]
    dsimp only
    rw [if_pos (by simp [hns])]
  refine ⟨hsv, ?_, ?_, ?_⟩
  · intro v rest hv
    exact (parseNext_inline fs fs name v rest none hne hd hee heq hv (hsv v)).1
  · intro v rest hb hv
    cases name with
    | nil => exact absurd rfl hne
    | cons c m =>
      have hc : c ≠ '-' := by simpa using hd
      rw [FlagSet.parseNext]
      rw [if_neg (by simp)]
      rw [if_neg (by simp [hc])]
      rw [if_neg (by simp [hc])]
      exact parseOne_sep_value fs fs _ (c :: m) v rest f none hne hh1 hh2 hd hee
        heq hreg hb hv (hsv v)
  · intro rest b hval
    have h := (parseNext_bare_bool fs name rest f b hreg hval hne hh1 hh2 hd hee heq).1
    rw [h, finsert_of_mem fs.found name hfound]

/-- Witness for `c5_repeated_scalar_first_wins`: string flag `s` already
found; a later `-s=zz` occurrence is ignored. -/
theorem c5_repeated_scalar_first_wins_witness :
    FlagSet.parseNext
        { flags := [('s' :: [], ⟨.dString ('a' :: []), .str [], []⟩)],
          found := ('s' :: []) :: [] }
        [('-' :: 's' :: '=' :: 'z' :: 'z' :: [])]
      = ({ flags := [('s' :: [], ⟨.dString ('a' :: []), .str [], []⟩)],
           found := ('s' :: []) :: [] }, .ok []) := by
  have h := ((c5_repeated_scalar_first_wins
      { flags := [('s' :: [], ⟨.dString ('a' :: []), .str [], []⟩)],
        found := ('s' :: []) :: [] }
      ('s' :: []) ⟨.dString ('a' :: []), .str [], []⟩
      (by decide) rfl rfl (by decide) (by decide) (by decide) (by decide)
      (by decide) (by decide)).2.1) ('z' :: 'z' :: []) [] (by decide)
  exact h

theorem durSign_not_sign (c : Char) (m : Str) (h1 : c ≠ '-') (h2 : c ≠ '+') :
    durSign (c :: m) = (false, c :: m) := by
  unfold durSign
  split
  · rename_i tl he
    rw [List.cons.injEq] at he
    exact absurd he.1 h1
  · rename_i tl he
    rw [List.cons.injEq] at he
    exact absurd he.1 h2
  · rfl

theorem leadingIntAux_digits : ∀ (s_ : Str) (x : Nat), (∀ c ∈ s_, isDig c) →
    leadingIntAux x s_ = none ∨ ∃ v, leadingIntAux x s_ = some (v, [])
  | [], x, _ => Or.inr ⟨x, rfl⟩
  | c :: m, x, hs => by
    have hc : isDig c := hs c (List.mem_cons_self c m)
    rw [leadingIntAux]
    rw [if_neg (by simp [hc])]
    split
    · exact Or.inl rfl
    · dsimp only
      split
      · exact Or.inl rfl
      · exact leadingIntAux_digits m _ (fun d hd => hs d (List.mem_cons_of_mem c hd))

/-- `time.ParseDuration` rejects every nonempty all-digit string other than
the special-cased `"0"`: after the integer part is consumed nothing remains
to serve as a unit (`missing unit in duration`), and an overflowing integer
part is likewise an error. -/
theorem goParseDuration_digits (s_ : Str) (hne : s_ ≠ [])
    (hdig : ∀ c ∈ s_, isDig c) (h0 : s_ ≠ '0' :: []) :
    goParseDuration s_ = none := by
  cases s_ with
  | nil => exact absurd rfl hne
  | cons c m =>
    have hc : isDig c := hdig c (List.mem_cons_self c m)
    have hcd : c ≠ '-' := by
      intro e
      rw [e] at hc
      exact absurd hc (by decide)
    have hcp : c ≠ '+' := by
      intro e
      rw [e] at hc
      exact absurd hc (by decide)
    unfold goParseDuration
    rw [durSign_not_sign c m hcd hcp]
    dsimp only
    rw [if_neg h0, if_neg (by simp)]
    have hL := leadingIntAux_digits (c :: m) 0 hdig
    rw [durLoop]
    rw [if_neg (by simp [hc])]
    unfold leadingInt
    rcases hL with hL | ⟨v, hL⟩ <;> rw [hL]
    dsimp only
    rw [if_neg (by simp)]
    rfl

/-- C7 counterexample: the bare unitless numeric string `"0"` does NOT fail —
`time.ParseDuration` special-cases it, so `Set` succeeds and writes the zero
duration (here even overwriting a previous value 5). -/
theorem c7_counterexample :
    valueSet (.dDuration 5) (.str ('0' :: [])) = (.dDuration 0, none) := rfl

/-- C7 (amended): for a duration destination, `Set` accepts a duration value
directly; accepts each numeric kind (`int`/`int64`/`uint`/`uint64`/`float64`)
as a raw tick count (converted as Go converts to `time.Duration`: identity
for signed kinds, two's-complement reinterpretation for unsigned, truncation
for floats); accepts duration-literal strings such as `"5s"` and `"1h30m"`;
and fails with an error on every bare unitless numeric (all-digit) string
EXCEPT the literal `"0"`, which Go special-cases as the zero duration. -/
theorem c7_duration_coercions :
    (∀ d n : Int, valueSet (.dDuration d) (.duration n) = (.dDuration n, none)) ∧
    (∀ d n : Int, valueSet (.dDuration d) (.int n) = (.dDuration n, none)) ∧
    (∀ d n : Int, valueSet (.dDuration d) (.int64 n) = (.dDuration n, none)) ∧
    (∀ (d : Int) (n : Nat),
      valueSet (.dDuration d) (.uint n) = (.dDuration (wrap64 n), none)) ∧
    (∀ (d : Int) (n : Nat),
      valueSet (.dDuration d) (.uint64 n) = (.dDuration (wrap64 n), none)) ∧
    (∀ (d : Int) (q : Rat),
      valueSet (.dDuration d) (.float64 q)
        = (.dDuration (wrap64 (ratTrunc q)), none)) ∧
    (∀ d : Int, valueSet (.dDuration d) (.str ('5' :: 's' :: []))
      = (.dDuration 5000000000, none)) ∧
    (∀ d : Int, valueSet (.dDuration d) (.str ('1' :: 'h' :: '3' :: '0' :: 'm' :: []))
      = (.dDuration 5400000000000, none)) ∧
    (∀ d : Int, valueSet (.dDuration d) (.str ('1' :: []))
      = (.dDuration d, some .parseFailure)) ∧
    (∀ (d : Int) (s_ : Str), s_ ≠ [] → (∀ c ∈ s_, isDig c) → s_ ≠ '0' :: [] →
      valueSet (.dDuration d) (.str s_) = (.dDuration d, some .parseFailure)) ∧
    (∀ d : Int, valueSet (.dDuration d) (.str ('0' :: [])) = (.dDuration 0, none)) := by
  refine ⟨fun d n => rfl, fun d n => rfl, fun d n => rfl, fun d n => rfl,
    fun d n => rfl, fun d q => rfl, fun d => rfl, fun d => rfl, fun d => rfl,
    ?_, fun d => rfl⟩
  intro d s_ hne hdig h0
  show (let (x, e) := assignDuration d (.str s_); (Dest.dDuration x, e))
    = (.dDuration d, some .parseFailure)
  unfold assignDuration
  dsimp only
  unfold strToDuration
  rw [goParseDuration_digits s_ hne hdig h0]

/-- Witness for `c7_duration_coercions` at concrete inputs, discharging the
digit-string hypotheses at `"7"`. -/
theorem c7_duration_coercions_witness :
    (('7' :: [] : Str) ≠ []) ∧ (∀ c ∈ ('7' :: [] : Str), isDig c) ∧
    (('7' :: [] : Str) ≠ '0' :: []) ∧
    valueSet (.dDuration 3) (.str ('7' :: [])) = (.dDuration 3, some .parseFailure) :=
  ⟨by decide, by decide, by decide,
    c7_duration_coercions.2.2.2.2.2.2.2.2.2.1 3 ('7' :: []) (by decide) (by decide)
      (by decide)⟩

/-- The two input shapes whose element-wise conversion loop REPLACES the
destination before it can fail: a generic `[]interface{}` sequence and a
`[]string`.  All other failing assignments leave the slot untouched. -/
theorem map_const_eq_replicate {α β : Type} (l : List α) (b : β) :
    l.map (fun _ => b) = List.replicate l.length b := by
  induction l with
  | nil => rfl
  | cons a t ih => simp [List.replicate_succ, ih]

/-- The `make`-then-fill loop on failure: the input splits as a converted
prefix (each element coercion succeeding), the first failing element, and a
rest; the output is the converted prefix followed by zeros (the failing slot
and everything past it keep the `make` zero value). -/
theorem fillLoop_err {α : Type} (assign : α → GoVal → α × Option VErr)
    (zero : α)
    (hz : ∀ y, (assign zero y).2.isSome → (assign zero y).1 = zero) :
    ∀ (l : List GoVal) (out : List α) (e : VErr),
    fillLoop assign zero l = (out, some e) →
    ∃ l₁ x l₂, l = l₁ ++ x :: l₂ ∧
      (∀ y ∈ l₁, (assign zero y).2 = none) ∧
      (assign zero x).2 = some e ∧
      out = l₁.map (fun y => (assign zero y).1) ++
        List.replicate (l₂.length + 1) zero
  | [], out, e => by
    intro h
    simp [fillLoop] at h
  | v :: rest, out, e => by
    intro h
    unfold fillLoop at h
    rcases ha : assign zero v with ⟨x, e?⟩
    rw [ha] at h
    cases e? with
    | none =>
      rcases hr : fillLoop assign zero rest with ⟨out2, e₂⟩
      rw [hr] at h
      dsimp only at h
      have h1 : x :: out2 = out := congrArg Prod.fst h
      have h2 : e₂ = some e := congrArg Prod.snd h
      subst h2
      obtain ⟨l₁, y, l₂, hle, hpre, hx, hout⟩ :=
        fillLoop_err assign zero hz rest out2 e hr
      refine ⟨v :: l₁, y, l₂, by rw [hle]; rfl, ?_, hx, ?_⟩
      · intro z hz2
        rcases List.mem_cons.mp hz2 with hzz | hzz
        · subst hzz
          rw [ha]
        · exact hpre z hzz
      · rw [← h1, hout]
        simp [ha]
    | some e₀ =>
      dsimp only at h
      have h1 : x :: rest.map (fun _ => zero) = out := congrArg Prod.fst h
      have h2 : (some e₀ : Option VErr) = some e := congrArg Prod.snd h
      have he : e₀ = e := Option.some.inj h2
      subst he
      have hx0 : x = zero := by
        have hh := hz v (by rw [ha]; rfl)
        rw [ha] at hh
        exact hh
      refine ⟨[], v, rest, rfl, by simp, by rw [ha], ?_⟩
      rw [← h1, hx0]
      simp [List.replicate_succ, map_const_eq_replicate]

def isGenericSeq : GoVal → Bool
  | .strList _ | .ifaceList _ => true
  | _ => false

theorem strToInt_err (dst : Int) (s_ : Str) :
    (strToInt dst s_).2.isSome → (strToInt dst s_).1 = dst := by
  unfold strToInt
  cases goParseInt s_ <;> simp

theorem strToUint_err (dst : Nat) (s_ : Str) :
    (strToUint dst s_).2.isSome → (strToUint dst s_).1 = dst := by
  unfold strToUint
  cases goParseUint s_ <;> simp

theorem strToBool_err (dst : Bool) (s_ : Str) :
    (strToBool dst s_).2.isSome → (strToBool dst s_).1 = dst := by
  unfold strToBool
  cases goParseBool s_ <;> simp

theorem strToFloat_err (dst : Rat) (s_ : Str) :
    (strToFloat dst s_).2.isSome → (strToFloat dst s_).1 = dst := by
  unfold strToFloat
  cases goParseFloat s_ <;> simp

theorem strToDuration_err (dst : Int) (s_ : Str) :
    (strToDuration dst s_).2.isSome → (strToDuration dst s_).1 = dst := by
  unfold strToDuration
  cases goParseDuration s_ <;> simp

theorem assignInt_err (dst : Int) (v : GoVal) :
    (assignInt dst v).2.isSome → (assignInt dst v).1 = dst := by
  cases v <;> first
    | (simp [assignInt]; done)
    | exact strToInt_err dst _

theorem assignUint_err (dst : Nat) (v : GoVal) :
    (assignUint dst v).2.isSome → (assignUint dst v).1 = dst := by
  cases v <;> first
    | (simp [assignUint]; done)
    | exact strToUint_err dst _

theorem assignInt64_err (dst : Int) (v : GoVal) :
    (assignInt64 dst v).2.isSome → (assignInt64 dst v).1 = dst := by
  cases v <;> first
    | (simp [assignInt64]; done)
    | exact strToInt_err dst _

theorem assignUint64_err (dst : Nat) (v : GoVal) :
    (assignUint64 dst v).2.isSome → (assignUint64 dst v).1 = dst := by
  cases v <;> first
    | (simp [assignUint64]; done)
    | exact strToUint_err dst _

theorem assignBool_err (dst : Bool) (v : GoVal) :
    (assignBool dst v).2.isSome → (assignBool dst v).1 = dst := by
  cases v <;> first
    | (simp [assignBool]; done)
    | exact strToBool_err dst _

theorem assignFloat64_err (dst : Rat) (v : GoVal) :
    (assignFloat64 dst v).2.isSome → (assignFloat64 dst v).1 = dst := by
  cases v <;> first
    | (simp [assignFloat64]; done)
    | exact strToFloat_err dst _

theorem assignDuration_err (dst : Int) (v : GoVal) :
    (assignDuration dst v).2.isSome → (assignDuration dst v).1 = dst := by
  cases v <;> first
    | (simp [assignDuration]; done)
    | exact strToDuration_err dst _

theorem assignIntList_err (dst : List Int) (v : GoVal)
    (hg : isGenericSeq v = false)
    (h : (assignIntList dst v).2.isSome) : (assignIntList dst v).1 = dst := by
  cases v <;>
    first
    | (simp [isGenericSeq] at hg; done)
    | (simp [assignIntList] at h; done)
    | (simp [assignIntList, numScalarCase] at h ⊢
       try split at h <;> simp_all)
theorem assignUintList_err (dst : List Nat) (v : GoVal)
    (hg : isGenericSeq v = false)
    (h : (assignUintList dst v).2.isSome) : (assignUintList dst v).1 = dst := by
  cases v <;>
    first
    | (simp [isGenericSeq] at hg; done)
    | (simp [assignUintList] at h; done)
    | (simp [assignUintList, numScalarCase] at h ⊢
       try split at h <;> simp_all)

theorem assignInt64List_err (dst : List Int) (v : GoVal)
    (hg : isGenericSeq v = false)
    (h : (assignInt64List dst v).2.isSome) : (assignInt64List dst v).1 = dst := by
  cases v <;>
    first
    | (simp [isGenericSeq] at hg; done)
    | (simp [assignInt64List] at h; done)
    | (simp [assignInt64List, numScalarCase] at h ⊢
       try split at h <;> simp_all)

theorem assignUint64List_err (dst : List Nat) (v : GoVal)
    (hg : isGenericSeq v = false)
    (h : (assignUint64List dst v).2.isSome) : (assignUint64List dst v).1 = dst := by
  cases v <;>
    first
    | (simp [isGenericSeq] at hg; done)
    | (simp [assignUint64List] at h; done)
    | (simp [assignUint64List, numScalarCase] at h ⊢
       try split at h <;> simp_all)

theorem assignDurationList_err (dst : List Int) (v : GoVal)
    (hg : isGenericSeq v = false)
    (h : (assignDurationList dst v).2.isSome) : (assignDurationList dst v).1 = dst := by
  cases v <;>
    first
    | (simp [isGenericSeq] at hg; done)
    | (simp [assignDurationList] at h; done)
    | (simp [assignDurationList, durScalarCase] at h ⊢
       try split at h <;> simp_all)

theorem assignFloat64List_err (dst : List Rat) (v : GoVal)
    (hg : isGenericSeq v = false)
    (h : (assignFloat64List dst v).2.isSome) : (assignFloat64List dst v).1 = dst := by
  cases v <;>
    first
    | (simp [isGenericSeq] at hg; done)
    | (simp [assignFloat64List] at h; done)
    | (simp [assignFloat64List, floatScalarCase] at h ⊢
       try split at h <;> simp_all)
theorem valueSet_err_unchanged (d : Dest) (v : GoVal)
    (hx : isSlice d = false ∨ isGenericSeq v = false)
    (h : (valueSet d v).2.isSome) : (valueSet d v).1 = d := by
  have hg : isSlice d = true → isGenericSeq v = false := fun hs =>
    hx.resolve_left (by simp [hs])
  cases d with
  | dString x => simp [valueSet] at h
  | dFloat64 x =>
    simp only [valueSet] at h ⊢
    rcases hA : assignFloat64 x v with ⟨a, e⟩
    rw [hA] at h
    have hE := assignFloat64_err x v
    rw [hA] at hE
    cases e with
    | none => simp at h
    | some er => exact congrArg _ (hE (by simp))
  | dBool x =>
    simp only [valueSet] at h ⊢
    rcases hA : assignBool x v with ⟨a, e⟩
    rw [hA] at h
    have hE := assignBool_err x v
    rw [hA] at hE
    cases e with
    | none => simp at h
    | some er => exact congrArg _ (hE (by simp))
  | dUint x =>
    simp only [valueSet] at h ⊢
    rcases hA : assignUint x v with ⟨a, e⟩
    rw [hA] at h
    have hE := assignUint_err x v
    rw [hA] at hE
    cases e with
    | none => simp at h
    | some er => exact congrArg _ (hE (by simp))
  | dInt x =>
    simp only [valueSet] at h ⊢
    rcases hA : assignInt x v with ⟨a, e⟩
    rw [hA] at h
    have hE := assignInt_err x v
    rw [hA] at hE
    cases e with
    | none => simp at h
    | some er => exact congrArg _ (hE (by simp))
  | dUint64 x =>
    simp only [valueSet] at h ⊢
    rcases hA : assignUint64 x v with ⟨a, e⟩
    rw [hA] at h
    have hE := assignUint64_err x v
    rw [hA] at hE
    cases e with
    | none => simp at h
    | some er => exact congrArg _ (hE (by simp))
  | dInt64 x =>
    simp only [valueSet] at h ⊢
    rcases hA : assignInt64 x v with ⟨a, e⟩
    rw [hA] at h
    have hE := assignInt64_err x v
    rw [hA] at hE
    cases e with
    | none => simp at h
    | some er => exact congrArg _ (hE (by simp))
  | dDuration x =>
    simp only [valueSet] at h ⊢
    rcases hA : assignDuration x v with ⟨a, e⟩
    rw [hA] at h
    have hE := assignDuration_err x v
    rw [hA] at hE
    cases e with
    | none => simp at h
    | some er => exact congrArg _ (hE (by simp))
  | dStringList x => simp [valueSet] at h
  | dFloat64List x =>
    simp only [valueSet] at h ⊢
    rcases hA : assignFloat64List x v with ⟨a, e⟩
    rw [hA] at h
    have hE := assignFloat64List_err x v (hg rfl)
    rw [hA] at hE
    cases e with
    | none => simp at h
    | some er => exact congrArg _ (hE (by simp))
  | dIntList x =>
    simp only [valueSet] at h ⊢
    rcases hA : assignIntList x v with ⟨a, e⟩
    rw [hA] at h
    have hE := assignIntList_err x v (hg rfl)
    rw [hA] at hE
    cases e with
    | none => simp at h
    | some er => exact congrArg _ (hE (by simp))
  | dUintList x =>
    simp only [valueSet] at h ⊢
    rcases hA : assignUintList x v with ⟨a, e⟩
    rw [hA] at h
    have hE := assignUintList_err x v (hg rfl)
    rw [hA] at hE
    cases e with
    | none => simp at h
    | some er => exact congrArg _ (hE (by simp))
  | dInt64List x =>
    simp only [valueSet] at h ⊢
    rcases hA : assignInt64List x v with ⟨a, e⟩
    rw [hA] at h
    have hE := assignInt64List_err x v (hg rfl)
    rw [hA] at hE
    cases e with
    | none => simp at h
    | some er => exact congrArg _ (hE (by simp))
  | dUint64List x =>
    simp only [valueSet] at h ⊢
    rcases hA : assignUint64List x v with ⟨a, e⟩
    rw [hA] at h
    have hE := assignUint64List_err x v (hg rfl)
    rw [hA] at hE
    cases e with
    | none => simp at h
    | some er => exact congrArg _ (hE (by simp))
  | dDurationList x =>
    simp only [valueSet] at h ⊢
    rcases hA : assignDurationList x v with ⟨a, e⟩
    rw [hA] at h
    have hE := assignDurationList_err x v (hg rfl)
    rw [hA] at hE
    cases e with
    | none => simp at h
    | some er => exact congrArg _ (hE (by simp))

/-- C2 counterexample: a `[]int` destination holding `[5]` assigned the
string list `["a"]`: `Set` returns an error, yet the slot now holds `[0]`
(the zero-filled replacement slice), not its previous contents. -/
theorem c2_counterexample :
    valueSet (.dIntList (5 :: [])) (.strList (('a' :: []) :: []))
      = (.dIntList (0 :: []), some .parseFailure) ∧
    (Dest.dIntList (0 :: [])) ≠ (Dest.dIntList (5 :: [])) :=
  ⟨rfl, by decide⟩

/-- C2 (amended): if `Value.Set` returns an error, the destination slot is
unchanged — EXCEPT when a list destination is assigned a generic
`[]interface{}` sequence or a `[]string` whose element-wise coercion fails
partway: those paths first replace the slot with a zero-filled slice of the
input's length and fill it left to right, so on failure the slot holds the
partially converted slice — a successfully converted prefix followed by
zeros from the first failing element on (`zeroFill`). -/
theorem c2_set_failure_mutation (d d' : Dest) (v : GoVal) (e : VErr)
    (h : valueSet d v = (d', some e)) :
    (¬ (isSlice d = true ∧ isGenericSeq v = true) → d' = d) ∧
    (isSlice d = true → isGenericSeq v = true →
      ∃ elems, seqVals v = some elems ∧ zeroFill d elems d' e) := by
  constructor
  · intro hne
    have hs : (valueSet d v).2.isSome := by rw [h]; rfl
    have h1 : (valueSet d v).1 = d' := by rw [h]
    rw [← h1]
    apply valueSet_err_unchanged d v ?_ hs
    by_cases hsd : isSlice d = true
    · right
      by_cases hgv : isGenericSeq v = true
      · exact absurd ⟨hsd, hgv⟩ hne
      · exact Bool.eq_false_iff.mpr hgv
    · left
      exact Bool.eq_false_iff.mpr hsd
  · intro hsd hgv
    cases d with
    | dString x => simp [valueSet] at h
    | dFloat64 x => simp [isSlice] at hsd
    | dBool x => simp [isSlice] at hsd
    | dUint x => simp [isSlice] at hsd
    | dInt x => simp [isSlice] at hsd
    | dUint64 x => simp [isSlice] at hsd
    | dInt64 x => simp [isSlice] at hsd
    | dDuration x => simp [isSlice] at hsd
    | dStringList x =>
      cases v
      case strList l => simp [valueSet, assignStringList] at h
      case ifaceList l => simp [valueSet, assignStringList] at h
      all_goals simp [isGenericSeq] at hgv
    | dIntList x =>
      cases v
      case ifaceList l =>
        refine ⟨l, rfl, ?_⟩
        simp only [valueSet, assignIntList] at h
        rcases hf : fillLoop assignInt 0 l with ⟨out, e?⟩
        rw [hf] at h
        dsimp only at h
        have h1 : Dest.dIntList out = d' := congrArg Prod.fst h
        have h2 : e? = some e := congrArg Prod.snd h
        subst h2
        obtain ⟨l₁, y, l₂, hle, hpre, hxx, hout⟩ :=
          fillLoop_err assignInt 0 (fun y hy => assignInt_err 0 y hy) l out e hf
        exact ⟨l₁, y, l₂, hle, hpre, hxx, by rw [← h1, hout]⟩
      case strList l =>
        refine ⟨l.map GoVal.str, rfl, ?_⟩
        simp only [valueSet, assignIntList] at h
        rcases hf : fillLoop assignInt 0 (l.map GoVal.str) with ⟨out, e?⟩
        rw [hf] at h
        dsimp only at h
        have h1 : Dest.dIntList out = d' := congrArg Prod.fst h
        have h2 : e? = some e := congrArg Prod.snd h
        subst h2
        obtain ⟨l₁, y, l₂, hle, hpre, hxx, hout⟩ :=
          fillLoop_err assignInt 0 (fun y hy => assignInt_err 0 y hy)
            (l.map GoVal.str) out e hf
        exact ⟨l₁, y, l₂, hle, hpre, hxx, by rw [← h1, hout]⟩
      all_goals simp [isGenericSeq] at hgv
    | dUintList x =>
      cases v
      case ifaceList l =>
        refine ⟨l, rfl, ?_⟩
        simp only [valueSet, assignUintList] at h
        rcases hf : fillLoop assignUint 0 l with ⟨out, e?⟩
        rw [hf] at h
        dsimp only at h
        have h1 : Dest.dUintList out = d' := congrArg Prod.fst h
        have h2 : e? = some e := congrArg Prod.snd h
        subst h2
        obtain ⟨l₁, y, l₂, hle, hpre, hxx, hout⟩ :=
          fillLoop_err assignUint 0 (fun y hy => assignUint_err 0 y hy) l out e hf
        exact ⟨l₁, y, l₂, hle, hpre, hxx, by rw [← h1, hout]⟩
      case strList l =>
        refine ⟨l.map GoVal.str, rfl, ?_⟩
        simp only [valueSet, assignUintList] at h
        rcases hf : fillLoop assignUint 0 (l.map GoVal.str) with ⟨out, e?⟩
        rw [hf] at h
        dsimp only at h
        have h1 : Dest.dUintList out = d' := congrArg Prod.fst h
        have h2 : e? = some e := congrArg Prod.snd h
        subst h2
        obtain ⟨l₁, y, l₂, hle, hpre, hxx, hout⟩ :=
          fillLoop_err assignUint 0 (fun y hy => assignUint_err 0 y hy)
            (l.map GoVal.str) out e hf
        exact ⟨l₁, y, l₂, hle, hpre, hxx, by rw [← h1, hout]⟩
      all_goals simp [isGenericSeq] at hgv
    | dInt64List x =>
      cases v
      case ifaceList l =>
        refine ⟨l, rfl, ?_⟩
        simp only [valueSet, assignInt64List] at h
        rcases hf : fillLoop assignInt64 0 l with ⟨out, e?⟩
        rw [hf] at h
        dsimp only at h
        have h1 : Dest.dInt64List out = d' := congrArg Prod.fst h
        have h2 : e? = some e := congrArg Prod.snd h
        subst h2
        obtain ⟨l₁, y, l₂, hle, hpre, hxx, hout⟩ :=
          fillLoop_err assignInt64 0 (fun y hy => assignInt64_err 0 y hy) l out e hf
        exact ⟨l₁, y, l₂, hle, hpre, hxx, by rw [← h1, hout]⟩
      case strList l =>
        refine ⟨l.map GoVal.str, rfl, ?_⟩
        simp only [valueSet, assignInt64List] at h
        rcases hf : fillLoop assignInt64 0 (l.map GoVal.str) with ⟨out, e?⟩
        rw [hf] at h
        dsimp only at h
        have h1 : Dest.dInt64List out = d' := congrArg Prod.fst h
        have h2 : e? = some e := congrArg Prod.snd h
        subst h2
        obtain ⟨l₁, y, l₂, hle, hpre, hxx, hout⟩ :=
          fillLoop_err assignInt64 0 (fun y hy => assignInt64_err 0 y hy)
            (l.map GoVal.str) out e hf
        exact ⟨l₁, y, l₂, hle, hpre, hxx, by rw [← h1, hout]⟩
      all_goals simp [isGenericSeq] at hgv
    | dUint64List x =>
      cases v
      case ifaceList l =>
        refine ⟨l, rfl, ?_⟩
        simp only [valueSet, assignUint64List] at h
        rcases hf : fillLoop assignUint64 0 l with ⟨out, e?⟩
        rw [hf] at h
        dsimp only at h
        have h1 : Dest.dUint64List out = d' := congrArg Prod.fst h
        have h2 : e? = some e := congrArg Prod.snd h
        subst h2
        obtain ⟨l₁, y, l₂, hle, hpre, hxx, hout⟩ :=
          fillLoop_err assignUint64 0 (fun y hy => assignUint64_err 0 y hy) l out e hf
        exact ⟨l₁, y, l₂, hle, hpre, hxx, by rw [← h1, hout]⟩
      case strList l =>
        refine ⟨l.map GoVal.str, rfl, ?_⟩
        simp only [valueSet, assignUint64List] at h
        rcases hf : fillLoop assignUint64 0 (l.map GoVal.str) with ⟨out, e?⟩
        rw [hf] at h
        dsimp only at h
        have h1 : Dest.dUint64List out = d' := congrArg Prod.fst h
        have h2 : e? = some e := congrArg Prod.snd h
        subst h2
        obtain ⟨l₁, y, l₂, hle, hpre, hxx, hout⟩ :=
          fillLoop_err assignUint64 0 (fun y hy => assignUint64_err 0 y hy)
            (l.map GoVal.str) out e hf
        exact ⟨l₁, y, l₂, hle, hpre, hxx, by rw [← h1, hout]⟩
      all_goals simp [isGenericSeq] at hgv
    | dDurationList x =>
      cases v
      case ifaceList l =>
        refine ⟨l, rfl, ?_⟩
        simp only [valueSet, assignDurationList] at h
        rcases hf : fillLoop assignDuration 0 l with ⟨out, e?⟩
        rw [hf] at h
        dsimp only at h
        have h1 : Dest.dDurationList out = d' := congrArg Prod.fst h
        have h2 : e? = some e := congrArg Prod.snd h
        subst h2
        obtain ⟨l₁, y, l₂, hle, hpre, hxx, hout⟩ :=
          fillLoop_err assignDuration 0 (fun y hy => assignDuration_err 0 y hy)
            l out e hf
        exact ⟨l₁, y, l₂, hle, hpre, hxx, by rw [← h1, hout]⟩
      case strList l =>
        refine ⟨l.map GoVal.str, rfl, ?_⟩
        simp only [valueSet, assignDurationList] at h
        rcases hf : fillLoop assignDuration 0 (l.map GoVal.str) with ⟨out, e?⟩
        rw [hf] at h
        dsimp only at h
        have h1 : Dest.dDurationList out = d' := congrArg Prod.fst h
        have h2 : e? = some e := congrArg Prod.snd h
        subst h2
        obtain ⟨l₁, y, l₂, hle, hpre, hxx, hout⟩ :=
          fillLoop_err assignDuration 0 (fun y hy => assignDuration_err 0 y hy)
            (l.map GoVal.str) out e hf
        exact ⟨l₁, y, l₂, hle, hpre, hxx, by rw [← h1, hout]⟩
      all_goals simp [isGenericSeq] at hgv
    | dFloat64List x =>
      cases v
      case ifaceList l =>
        refine ⟨l, rfl, ?_⟩
        simp only [valueSet, assignFloat64List] at h
        rcases hf : fillLoop assignFloat64 0 l with ⟨out, e?⟩
        rw [hf] at h
        dsimp only at h
        have h1 : Dest.dFloat64List out = d' := congrArg Prod.fst h
        have h2 : e? = some e := congrArg Prod.snd h
        subst h2
        obtain ⟨l₁, y, l₂, hle, hpre, hxx, hout⟩ :=
          fillLoop_err assignFloat64 0 (fun y hy => assignFloat64_err 0 y hy)
            l out e hf
        exact ⟨l₁, y, l₂, hle, hpre, hxx, by rw [← h1, hout]⟩
      case strList l =>
        refine ⟨l.map GoVal.str, rfl, ?_⟩
        simp only [valueSet, assignFloat64List] at h
        rcases hf : fillLoop assignFloat64 0 (l.map GoVal.str) with ⟨out, e?⟩
        rw [hf] at h
        dsimp only at h
        have h1 : Dest.dFloat64List out = d' := congrArg Prod.fst h
        have h2 : e? = some e := congrArg Prod.snd h
        subst h2
        obtain ⟨l₁, y, l₂, hle, hpre, hxx, hout⟩ :=
          fillLoop_err assignFloat64 0 (fun y hy => assignFloat64_err 0 y hy)
            (l.map GoVal.str) out e hf
        exact ⟨l₁, y, l₂, hle, hpre, hxx, by rw [← h1, hout]⟩
      all_goals simp [isGenericSeq] at hgv

/-- Witness for `c2_set_failure_mutation`: the `[]int` destination `[5]`
assigned the string list `["1","a"]` — the failing `Set` leaves the slot
holding the partially converted `[1, 0]`, and the theorem yields the
exceptional-path characterization for it. -/
theorem c2_set_failure_mutation_witness :
    valueSet (.dIntList (5 :: [])) (.strList (('1' :: []) :: ('a' :: []) :: []))
      = (.dIntList (1 :: 0 :: []), some .parseFailure) ∧
    ((¬ (isSlice (Dest.dIntList (5 :: [])) = true ∧
        isGenericSeq (GoVal.strList (('1' :: []) :: ('a' :: []) :: [])) = true) →
      Dest.dIntList (1 :: 0 :: []) = Dest.dIntList (5 :: [])) ∧
     (isSlice (Dest.dIntList (5 :: [])) = true →
      isGenericSeq (GoVal.strList (('1' :: []) :: ('a' :: []) :: [])) = true →
      ∃ elems,
        seqVals (GoVal.strList (('1' :: []) :: ('a' :: []) :: [])) =
          some elems ∧
        zeroFill (Dest.dIntList (5 :: [])) elems (Dest.dIntList (1 :: 0 :: []))
          .parseFailure)) :=
  ⟨rfl, c2_set_failure_mutation _ _ _ _ rfl⟩

/-- Index and prefix of the first env-typed source in an indexed source
list. -/
def firstEnvIdx : List (Nat × Source × SState) → Option (Nat × Str)
  | [] => none
  | (i, .env p, _) :: _ => some (i, p)
  | (_, .json _, _) :: rest => firstEnvIdx rest

theorem envExtrGet_found_iff : ∀ (sts : List (Nat × Source × SState))
    (envr : Environment) (key s₀ : Str),
    ((envExtrGet envr key sts (.dString s₀)).2.1 = .ok true) ↔
      (∃ i p, firstEnvIdx sts = some (i, p) ∧ (alookup envr (p ++ key)).isSome)
  | [], envr, key, s₀ => by
    simp [envExtrGet, firstEnvIdx]
  | (i, .json dec, st) :: rest, envr, key, s₀ => by
    rw [show envExtrGet envr key ((i, .json dec, st) :: rest) (.dString s₀)
        = envExtrGet envr key rest (.dString s₀) from rfl]
    rw [show firstEnvIdx ((i, .json dec, st) :: rest) = firstEnvIdx rest from rfl]
    exact envExtrGet_found_iff rest envr key s₀
  | (i, .env p, st) :: rest, envr, key, s₀ => by
    cases hv : alookup envr (p ++ key) with
    | none => simp [envExtrGet, firstEnvIdx, sourceGet, hv]
    | some v =>
      simp only [envExtrGet, firstEnvIdx, sourceGet, hv, valueSet]
      constructor
      · intro _
        exact ⟨i, p, rfl, by rw [hv]; rfl⟩
      · intro _
        trivial

theorem envExtrGet_queries : ∀ (sts : List (Nat × Source × SState))
    (envr : Environment) (key : Str) (dst : Dest) (j : Nat),
    j ∈ (envExtrGet envr key sts dst).2.2 → ∃ p, firstEnvIdx sts = some (j, p)
  | [], envr, key, dst, j => by simp [envExtrGet]
  | (i, .json dec, st) :: rest, envr, key, dst, j => by
    rw [show envExtrGet envr key ((i, .json dec, st) :: rest) dst
        = envExtrGet envr key rest dst from rfl]
    rw [show firstEnvIdx ((i, .json dec, st) :: rest) = firstEnvIdx rest from rfl]
    exact envExtrGet_queries rest envr key dst j
  | (i, .env p, st) :: rest, envr, key, dst, j => by
    intro hj
    refine ⟨p, ?_⟩
    rw [show firstEnvIdx ((i, .env p, st) :: rest) = some (i, p) from rfl]
    rcases hs : sourceGet envr (.env p) st key dst with ⟨d', r⟩
    rw [show envExtrGet envr key ((i, .env p, st) :: rest) dst
        = match sourceGet envr (.env p) st key dst with
          | (d', .error e) => (d', .error e, i :: [])
          | (d', .ok false) => (d', .ok false, i :: [])
          | (d', .ok true) => (d', .ok true, i :: []) from rfl, hs] at hj
    have : j = i := by
      rcases r with r | r
      · simpa using hj
      · cases r <;> simpa using hj
    rw [this]

theorem jsonExtrGet_continues (envr : Environment) (key : Str) (dst : Dest)
    (dec₁ dec₂ : Except Unit (List (Str × GoVal))) (m₁ m₂ : List (Str × GoVal))
    (h1 : alookup m₁ key = none) :
    (jsonExtrGet envr key
        ((0, .json dec₁, some m₁) :: (1, .json dec₂, some m₂) :: []) dst).2.2
      = 0 :: 1 :: [] := by
  rcases h2 : alookup m₂ key with _ | v
  · simp [jsonExtrGet, sourceGet, h1, h2]
  · rcases h3 : valueSet dst v with ⟨d', e?⟩
    cases e? <;> simp [jsonExtrGet, sourceGet, h1, h2, h3]

/-- C10: the `Env` extractor consults ONLY the first env-typed source in the
ordered source list: (a) with a string destination, `Env(key).Get` reports
found exactly when a first env source exists and its environment defines
`prefix ++ key`; (b) every source index it queries is the index of that
first env source — sources after it (env or not) are never queried; (c) by
contrast, the `JSON` extractor queries the second JSON source whenever the
first lacks the key. -/
theorem c10_env_extractor_first_env_only :
    (∀ (sts : List (Nat × Source × SState)) (envr : Environment) (key s₀ : Str),
      ((extrGet envr (.env key) sts (.dString s₀)).2.1 = .ok true) ↔
        (∃ i p, firstEnvIdx sts = some (i, p) ∧ (alookup envr (p ++ key)).isSome)) ∧
    (∀ (sts : List (Nat × Source × SState)) (envr : Environment) (key : Str)
        (dst : Dest) (j : Nat),
      j ∈ (extrGet envr (.env key) sts dst).2.2 →
      ∃ p, firstEnvIdx sts = some (j, p)) ∧
    (∀ (envr : Environment) (key : Str) (dst : Dest)
        (dec₁ dec₂ : Except Unit (List (Str × GoVal)))
        (m₁ m₂ : List (Str × GoVal)),
      alookup m₁ key = none →
      (extrGet envr (.json key)
          ((0, .json dec₁, some m₁) :: (1, .json dec₂, some m₂) :: []) dst).2.2
        = 0 :: 1 :: []) :=
  ⟨fun sts envr key s₀ => envExtrGet_found_iff sts envr key s₀,
   fun sts envr key dst j => envExtrGet_queries sts envr key dst j,
   fun envr key dst dec₁ dec₂ m₁ m₂ h1 =>
     jsonExtrGet_continues envr key dst dec₁ dec₂ m₁ m₂ h1⟩

/-- Witness for `c10_env_extractor_first_env_only` at concrete inputs:
an env source defining the key (found), and the two-JSON-source
continuation. -/
theorem c10_env_extractor_first_env_only_witness :
    (((extrGet (((('P' :: 'k' :: []) : Str), ('v' :: [] : Str)) :: [])
        (.env ('k' :: [])) ((0, .env ('P' :: []), none) :: [])
        (.dString [])).2.1 = .ok true) ↔
      (∃ i p, firstEnvIdx ((0, .env ('P' :: []), none) :: []) = some (i, p) ∧
        (alookup ((('P' :: 'k' :: []), ('v' :: [])) :: []) (p ++ 'k' :: [])).isSome)) ∧
    (alookup ([] : List (Str × GoVal)) ('k' :: []) = none) ∧
    ((extrGet [] (.json ('k' :: []))
        ((0, .json (.ok []), some []) :: (1, .json (.ok []), some []) :: [])
        (.dString [])).2.2 = 0 :: 1 :: []) :=
  ⟨c10_env_extractor_first_env_only.1 ((0, .env ('P' :: []), none) :: [])
      (((('P' :: 'k' :: []) : Str), ('v' :: [] : Str)) :: []) ('k' :: []) [],
   rfl,
   c10_env_extractor_first_env_only.2.2 [] ('k' :: []) (.dString [])
      (.ok []) (.ok []) [] [] rfl⟩

theorem openAllFrom_events : ∀ (l : List Source) (i : Nat),
    ∀ e ∈ (openAllFrom i l).1, ∃ j, e = Ev.openEv j
  | [], i => by simp [openAllFrom]
  | s :: rest, i => by
    intro e he
    unfold openAllFrom at he
    cases hs : sourceOpen s with
    | error e' =>
      rw [hs] at he
      simp at he
      exact ⟨i, he⟩
    | ok st =>
      rw [hs] at he
      rcases hrec : openAllFrom (i + 1) rest with ⟨evs, r⟩
      rw [hrec] at he
      cases r with
      | error e' =>
        rcases List.mem_cons.mp he with h | h
        · exact ⟨i, h⟩
        · exact openAllFrom_events rest (i + 1) e (by rw [hrec]; exact h)
      | ok sts =>
        rcases List.mem_cons.mp he with h | h
        · exact ⟨i, h⟩
        · exact openAllFrom_events rest (i + 1) e (by rw [hrec]; exact h)

theorem mem_closeAll (e : Ev) (n : Nat) (h : e ∈ closeAll n) :
    ∃ j, e = Ev.closeEv j := by
  unfold closeAll at h
  rcases List.mem_map.mp h with ⟨j, _, hj⟩
  exact ⟨j, hj.symm⟩

/-- The resolution loop never touches a flag that is already `found`: its
registry entry (and so its destination) is left unchanged, its extractors
are never asked (no query event for it), and its default is never applied. -/
theorem resolveFlags_skips_found : ∀ (fl : List (Str × Flag))
    (envr : Environment) (fs : FlagSet) (sts : List (Nat × Source × SState))
    (name : Str), name ∈ fs.found →
    alookup (fs.resolveFlags envr fl sts).1.flags name = alookup fs.flags name ∧
    (∀ i, Ev.getEv name i ∉ (fs.resolveFlags envr fl sts).2.2) ∧
    Ev.defaultEv name ∉ (fs.resolveFlags envr fl sts).2.2
  | [], envr, fs, sts, name => fun _ => by
    unfold FlagSet.resolveFlags
    exact ⟨rfl, by simp, by simp⟩
  | (n', g) :: rest, envr, fs, sts, name => fun hf => by
    unfold FlagSet.resolveFlags
    by_cases hmem : n' ∈ fs.found
    · rw [if_pos hmem]
      exact resolveFlags_skips_found rest envr fs sts name hf
    · rw [if_neg hmem]
      have hne : n' ≠ name := fun e => hmem (e ▸ hf)
      cases hreg : alookup fs.flags n' with
      | none =>
        exact resolveFlags_skips_found rest envr fs sts name hf
      | some f =>
        dsimp only
        rcases hrun : runExtractors envr f.extractors sts f.value with ⟨d', r, q⟩
        cases r with
        | error er =>
          dsimp only
          refine ⟨alookup_aset_ne fs.flags n' name _ hne, ?_, ?_⟩
          · intro i hi
            rcases List.mem_map.mp hi with ⟨j, _, hj⟩
            exact hne (Ev.getEv.injEq .. |>.mp hj.symm).1.symm
          · intro hi
            rcases List.mem_map.mp hi with ⟨j, _, hj⟩
            exact absurd hj (by simp)
        | ok b =>
          cases b with
          | true =>
            dsimp only
            have ih := resolveFlags_skips_found rest envr
                { fs with flags := aset fs.flags n' { f with value := d' } }
                sts name hf
            refine ⟨by rw [ih.1]; exact alookup_aset_ne fs.flags n' name _ hne,
              ?_, ?_⟩
            · intro i hi
              rcases List.mem_append.mp hi with h | h
              · rcases List.mem_map.mp h with ⟨j, _, hj⟩
                exact hne (Ev.getEv.injEq .. |>.mp hj.symm).1.symm
              · exact ih.2.1 i h
            · intro hi
              rcases List.mem_append.mp hi with h | h
              · rcases List.mem_map.mp h with ⟨j, _, hj⟩
                exact absurd hj (by simp)
              · exact ih.2.2 h
          | false =>
            dsimp only
            split
            · rename_i d'' hset
              dsimp only
              have ih := resolveFlags_skips_found rest envr
                  { fs with
                    found := finsert fs.found n',
                    flags := aset fs.flags n' { f with value := d'' } }
                  sts name (mem_finsert_of_mem fs.found n' name hf)
              refine ⟨by rw [ih.1]; exact alookup_aset_ne fs.flags n' name _ hne,
                ?_, ?_⟩
              · intro i hi
                rcases List.mem_append.mp hi with h | h
                · rcases List.mem_append.mp h with h' | h'
                  · rcases List.mem_map.mp h' with ⟨j, _, hj⟩
                    exact hne (Ev.getEv.injEq .. |>.mp hj.symm).1.symm
                  · simp at h'
                · exact ih.2.1 i h
              · intro hi
                rcases List.mem_append.mp hi with h | h
                · rcases List.mem_append.mp h with h' | h'
                  · rcases List.mem_map.mp h' with ⟨j, _, hj⟩
                    exact absurd hj (by simp)
                  · simp at h'
                    exact hne h'.symm
                · exact ih.2.2 h
            · rename_i d'' er hset
              dsimp only
              refine ⟨alookup_aset_ne fs.flags n' name _ hne, ?_, ?_⟩
              · intro i hi
                rcases List.mem_append.mp hi with h | h
                · rcases List.mem_map.mp h with ⟨j, _, hj⟩
                  exact hne (Ev.getEv.injEq .. |>.mp hj.symm).1.symm
                · simp at h
              · intro hi
                rcases List.mem_append.mp hi with h | h
                · rcases List.mem_map.mp h with ⟨j, _, hj⟩
                  exact absurd hj (by simp)
                · simp at h
                  exact hne h.symm

/-- C3: command-line wins over fallback sources.  Any flag marked `found`
during tokenization (in particular every flag supplied on the command line)
is untouched by the source-resolution phase of `Parse`: its registry entry
(hence its destination) after `Parse` is exactly the post-tokenization one,
its extractors are never queried (no get event for it in the trace) and its
default is never applied (no default event), on every exit path. -/
theorem c3_cli_value_wins (envr : Environment) (fs fs₁ : FlagSet)
    (args : List Str) (srcs : List Source) (name : Str)
    (hp : fs.parsed = false)
    (htok : FlagSet.parseLoop { fs with parsed := true, sources := srcs }
        (args.length + 1) args = (fs₁, none))
    (hfound : name ∈ fs₁.found) :
    alookup (FlagSet.parse envr fs args srcs).1.flags name =
      alookup fs₁.flags name ∧
    (∀ i, Ev.getEv name i ∉ (FlagSet.parse envr fs args srcs).2.2) ∧
    Ev.defaultEv name ∉ (FlagSet.parse envr fs args srcs).2.2 := by
  unfold FlagSet.parse
  rw [if_neg (by simp [hp]), htok]
  rcases hop : openAllFrom 0 srcs with ⟨evs, r⟩
  cases r with
  | error e =>
    dsimp only
    refine ⟨rfl, ?_, ?_⟩
    · intro i hi
      rcases List.mem_append.mp hi with h | h
      · rcases openAllFrom_events srcs 0 _ (by rw [hop]; exact h) with ⟨j, hj⟩
        simp at hj
      · rcases mem_closeAll _ _ h with ⟨j, hj⟩
        simp at hj
    · intro hi
      rcases List.mem_append.mp hi with h | h
      · rcases openAllFrom_events srcs 0 _ (by rw [hop]; exact h) with ⟨j, hj⟩
        simp at hj
      · rcases mem_closeAll _ _ h with ⟨j, hj⟩
        simp at hj
  | ok sts =>
    dsimp only
    have hsk := resolveFlags_skips_found fs₁.flags envr fs₁
        (enumSources srcs sts) name hfound
    rcases hres : FlagSet.resolveFlags envr fs₁ fs₁.flags (enumSources srcs sts)
      with ⟨fs₂, r2, evs₂⟩
    rw [hres] at hsk
    dsimp only
    refine ⟨hsk.1, ?_, ?_⟩
    · intro i hi
      rcases List.mem_append.mp hi with h | h
      · rcases List.mem_append.mp h with h' | h'
        · rcases openAllFrom_events srcs 0 _ (by rw [hop]; exact h') with ⟨j, hj⟩
          simp at hj
        · exact hsk.2.1 i h'
      · rcases mem_closeAll _ _ h with ⟨j, hj⟩
        simp at hj
    · intro hi
      rcases List.mem_append.mp hi with h | h
      · rcases List.mem_append.mp h with h' | h'
        · rcases openAllFrom_events srcs 0 _ (by rw [hop]; exact h') with ⟨j, hj⟩
          simp at hj
        · exact hsk.2.2 h'
      · rcases mem_closeAll _ _ h with ⟨j, hj⟩
        simp at hj

theorem c3_cli_value_wins_witness :
    c3fs0.parsed = false ∧
    (('b' :: []) : Str) ∈ c3fs1.found ∧
    (alookup (FlagSet.parse [] c3fs0 [['-', 'b']] [Source.env []]).1.flags
        ('b' :: []) = alookup c3fs1.flags ('b' :: []) ∧
      (∀ i, Ev.getEv ('b' :: []) i ∉
          (FlagSet.parse [] c3fs0 [['-', 'b']] [Source.env []]).2.2) ∧
      Ev.defaultEv ('b' :: []) ∉
        (FlagSet.parse [] c3fs0 [['-', 'b']] [Source.env []]).2.2) :=
  ⟨rfl, by decide,
    c3_cli_value_wins [] c3fs0 c3fs1 [['-', 'b']] [Source.env []] ('b' :: [])
      rfl rfl (by decide)⟩

theorem closeAll_count (n i : Nat) :
    (closeAll n).count (Ev.closeEv i) = if i < n then 1 else 0 := by
  induction n with
  | zero => simp [closeAll]
  | succ m ih =>
    rw [closeAll, List.range_succ, List.map_append, List.count_append]
    rw [closeAll] at ih
    rw [ih]
    simp only [List.map_cons, List.map_nil, List.count_cons, List.count_nil,
      beq_iff_eq, Ev.closeEv.injEq]
    split_ifs <;> omega

theorem range'_openEv_count : ∀ (k s i : Nat),
    ((List.range' s k).map Ev.openEv).count (Ev.openEv i) =
      if s ≤ i ∧ i < s + k then 1 else 0
  | 0, s, i => by
    simp only [List.range', List.map_nil, List.count_nil]
    split_ifs <;> omega
  | k + 1, s, i => by
    simp only [List.range', List.map_cons, List.count_cons, beq_iff_eq,
      Ev.openEv.injEq]
    rw [range'_openEv_count k (s + 1) i]
    split_ifs <;> omega

/-- Counting events in a trace of the canonical shape
`opens ++ queries/defaults ++ closes`. -/
theorem countTrace (k n : Nat) (mid : List Ev)
    (hm : ∀ e ∈ mid, (∃ nm i, e = Ev.getEv nm i) ∨ ∃ nm, e = Ev.defaultEv nm) :
    (∀ i, ((List.range' 0 k).map Ev.openEv ++ mid ++ closeAll n).count
        (Ev.closeEv i) = if i < n then 1 else 0) ∧
    ∀ i, ((List.range' 0 k).map Ev.openEv ++ mid ++ closeAll n).count
        (Ev.openEv i) ≤ 1 := by
  constructor
  · intro i
    rw [List.count_append, List.count_append]
    have h1 : ((List.range' 0 k).map Ev.openEv).count (Ev.closeEv i) = 0 :=
      List.count_eq_zero.mpr (fun h => by
        rcases List.mem_map.mp h with ⟨j, _, hj⟩
        simp at hj)
    have h2 : mid.count (Ev.closeEv i) = 0 :=
      List.count_eq_zero.mpr (fun h => by
        rcases hm _ h with ⟨nm, j, hj⟩ | ⟨nm, hj⟩ <;> simp at hj)
    rw [h1, h2, closeAll_count]
    simp
  · intro i
    rw [List.count_append, List.count_append]
    have h2 : mid.count (Ev.openEv i) = 0 :=
      List.count_eq_zero.mpr (fun h => by
        rcases hm _ h with ⟨nm, j, hj⟩ | ⟨nm, hj⟩ <;> simp at hj)
    have h3 : (closeAll n).count (Ev.openEv i) = 0 :=
      List.count_eq_zero.mpr (fun h => by
        rcases mem_closeAll _ _ h with ⟨j, hj⟩
        simp at hj)
    rw [h2, h3, range'_openEv_count]
    split_ifs <;> omega

/-- The open loop's event prefix: one open event per source, in order, up to
and including the first `Open` failure; all of them when the loop succeeds. -/
theorem openAllFrom_shape : ∀ (l : List Source) (i : Nat),
    ∃ k, k ≤ l.length ∧
      (openAllFrom i l).1 = (List.range' i k).map Ev.openEv ∧
      ∀ sts, (openAllFrom i l).2 = Except.ok sts → k = l.length
  | [], i =>
    ⟨0, Nat.le_refl 0, by simp [openAllFrom, List.range'], fun _ _ => rfl⟩
  | s :: rest, i => by
    obtain ⟨k, hk, hevs, hok⟩ := openAllFrom_shape rest (i + 1)
    unfold openAllFrom
    cases hs : sourceOpen s with
    | error e =>
      dsimp only
      exact ⟨1, by simp, by simp [List.range'], fun sts h => by simp at h⟩
    | ok st =>
      rcases hrec : openAllFrom (i + 1) rest with ⟨evs, r⟩
      rw [hrec] at hevs hok
      dsimp only at hevs hok
      cases r with
      | error e =>
        dsimp only
        refine ⟨k + 1, Nat.succ_le_succ hk, ?_, fun sts h => by simp at h⟩
        simp only [List.range', List.map_cons]
        rw [hevs]
      | ok sts =>
        dsimp only
        refine ⟨k + 1, Nat.succ_le_succ hk, ?_, fun sts' _ => ?_⟩
        · simp only [List.range', List.map_cons]
          rw [hevs]
        · simp [hok sts rfl]

/-- Every event the resolution loop emits is an extractor query or a default
application: it performs no opens and no closes. -/
theorem resolveFlags_events : ∀ (fl : List (Str × Flag)) (envr : Environment)
    (fs : FlagSet) (sts : List (Nat × Source × SState)),
    ∀ e ∈ (fs.resolveFlags envr fl sts).2.2,
      (∃ nm i, e = Ev.getEv nm i) ∨ ∃ nm, e = Ev.defaultEv nm
  | [], envr, fs, sts => by
    unfold FlagSet.resolveFlags
    simp
  | (n', g) :: rest, envr, fs, sts => by
    intro e he
    unfold FlagSet.resolveFlags at he
    by_cases hmem : n' ∈ fs.found
    · rw [if_pos hmem] at he
      exact resolveFlags_events rest envr fs sts e he
    · rw [if_neg hmem] at he
      cases hreg : alookup fs.flags n' with
      | none =>
        rw [hreg] at he
        exact resolveFlags_events rest envr fs sts e he
      | some f =>
        rw [hreg] at he
        dsimp only at he
        split at he
        · rcases List.mem_map.mp he with ⟨j, _, hj⟩
          exact Or.inl ⟨n', j, hj.symm⟩
        · rcases List.mem_append.mp he with h | h
          · rcases List.mem_map.mp h with ⟨j, _, hj⟩
            exact Or.inl ⟨n', j, hj.symm⟩
          · exact resolveFlags_events rest envr _ sts e h
        · split at he
          · rcases List.mem_append.mp he with h | h
            · rcases List.mem_append.mp h with h' | h'
              · rcases List.mem_map.mp h' with ⟨j, _, hj⟩
                exact Or.inl ⟨n', j, hj.symm⟩
              · simp at h'
                exact Or.inr ⟨n', h'⟩
            · exact resolveFlags_events rest envr _ sts e h
          · rcases List.mem_append.mp he with h | h
            · rcases List.mem_map.mp h with ⟨j, _, hj⟩
              exact Or.inl ⟨n', j, hj.symm⟩
            · simp at h
              exact Or.inr ⟨n', h⟩

/-- C6 counterexample: on the exit path taken when tokenization fails (here:
the unknown flag `-x`), `Parse` returns before ever opening the sources, and
the deferred close loop was never registered — the supplied source is neither
opened nor closed on this exit path, refuting "opened exactly once ... on
every exit path of Parse". -/
theorem c6_counterexample :
    (FlagSet.parse [] {} [['-', 'x']] [Source.env []]).2.1 =
      some (PErr.unknownFlag ('x' :: [])) ∧
    (FlagSet.parse [] {} [['-', 'x']] [Source.env []]).2.2 = [] := by
  constructor <;> rfl

/-- C6 (amended): once tokenization has succeeded — the point at which the
Go `Parse` registers the deferred close loop and starts opening sources —
the lifecycle holds on every exit path: the trace is open events for a
prefix of the sources, then only query/default events, then the close loop;
every source is closed exactly once (even after an `Open` failure or a fatal
resolution error), each source is opened at most once, and when `Parse` does
not fail with the open error every source was opened exactly once. -/
theorem c6_source_lifecycle (envr : Environment) (fs fs₁ : FlagSet)
    (args : List Str) (srcs : List Source)
    (hp : fs.parsed = false)
    (htok : FlagSet.parseLoop { fs with parsed := true, sources := srcs }
        (args.length + 1) args = (fs₁, none)) :
    ∃ k mid, k ≤ srcs.length ∧
      (FlagSet.parse envr fs args srcs).2.2 =
        (List.range' 0 k).map Ev.openEv ++ mid ++ closeAll srcs.length ∧
      (∀ e ∈ mid, (∃ nm i, e = Ev.getEv nm i) ∨ ∃ nm, e = Ev.defaultEv nm) ∧
      ((FlagSet.parse envr fs args srcs).2.1 ≠ some PErr.openErr →
        k = srcs.length) ∧
      (∀ i, ((FlagSet.parse envr fs args srcs).2.2).count (Ev.closeEv i) =
        if i < srcs.length then 1 else 0) ∧
      ∀ i, ((FlagSet.parse envr fs args srcs).2.2).count (Ev.openEv i) ≤ 1 := by
  unfold FlagSet.parse
  rw [if_neg (by simp [hp]), htok]
  obtain ⟨k, hk, hevs, hok⟩ := openAllFrom_shape srcs 0
  rcases hop : openAllFrom 0 srcs with ⟨evs, r⟩
  rw [hop] at hevs hok
  dsimp only at hevs hok
  subst hevs
  cases r with
  | error err =>
    dsimp only
    refine ⟨k, [], hk, by simp, by simp, fun hne => absurd rfl hne, ?_, ?_⟩
    · intro i
      have := (countTrace k srcs.length [] (by simp)).1 i
      simpa using this
    · intro i
      have := (countTrace k srcs.length [] (by simp)).2 i
      simpa using this
  | ok sts =>
    dsimp only
    have hkk : k = srcs.length := hok sts rfl
    have hmid := resolveFlags_events fs₁.flags envr fs₁ (enumSources srcs sts)
    rcases hres : FlagSet.resolveFlags envr fs₁ fs₁.flags (enumSources srcs sts)
      with ⟨fs₂, r2, evs₂⟩
    rw [hres] at hmid
    dsimp only at hmid
    dsimp only
    exact ⟨k, evs₂, hk, rfl, hmid, fun _ => hkk,
      (countTrace k srcs.length evs₂ hmid).1,
      (countTrace k srcs.length evs₂ hmid).2⟩

theorem c6_source_lifecycle_witness :
    c6fs0.parsed = false ∧
    FlagSet.parseLoop { c6fs0 with parsed := true, sources := [Source.env []] }
        1 [] = (c6fs1, none) ∧
    ∃ k mid, k ≤ 1 ∧
      (FlagSet.parse [] c6fs0 [] [Source.env []]).2.2 =
        (List.range' 0 k).map Ev.openEv ++ mid ++ closeAll 1 ∧
      (∀ e ∈ mid, (∃ nm i, e = Ev.getEv nm i) ∨ ∃ nm, e = Ev.defaultEv nm) ∧
      ((FlagSet.parse [] c6fs0 [] [Source.env []]).2.1 ≠ some PErr.openErr →
        k = 1) ∧
      (∀ i, ((FlagSet.parse [] c6fs0 [] [Source.env []]).2.2).count
          (Ev.closeEv i) = if i < 1 then 1 else 0) ∧
      ∀ i, ((FlagSet.parse [] c6fs0 [] [Source.env []]).2.2).count
          (Ev.openEv i) ≤ 1 :=
  ⟨rfl, rfl, c6_source_lifecycle [] c6fs0 c6fs1 [] [Source.env []] rfl rfl⟩

theorem isSlice_not_bool (d : Dest) (h : isSlice d = true) : isBool d = false := by
  cases d <;> first | rfl | (simp [isSlice] at h)

/-- `value.Set` never changes the pointer kind of the slot: the returned
contents wrap the same destination constructor. -/
theorem valueSet_isSlice (d : Dest) (w : GoVal) :
    isSlice (valueSet d w).1 = isSlice d := by
  cases d <;> rfl

/-- `parseNext` on a bare `-name` token of a known non-boolean flag followed
by a separate value token. -/
theorem parseNext_sep (fs fs' : FlagSet) (name v : Str) (rest : List Str)
    (f : Flag) (e? : Option PErr)
    (hne : name ≠ [])
    (hh1 : name ≠ 'h' :: [])
    (hh2 : name ≠ 'h' :: 'e' :: 'l' :: 'p' :: [])
    (hd : name.head? ≠ some '-')
    (hee : name.head? ≠ some '=')
    (heq : '=' ∉ name)
    (hreg : alookup fs.flags name = some f)
    (hb : isBool f.value = false)
    (hv : v.head? ≠ some '-')
    (hsv : fs.setValue name v = (fs', e?)) :
    FlagSet.parseNext fs (('-' :: name) :: v :: rest) = (fs', okOr rest e?) := by
  cases name with
  | nil => exact absurd rfl hne
  | cons c m =>
    have hc : c ≠ '-' := by simpa using hd
    rw [FlagSet.parseNext]
    rw [if_neg (by simp)]
    rw [if_neg (by simp [hc])]
    rw [if_neg (by simp [hc])]
    exact parseOne_sep_value fs fs' _ (c :: m) v rest f e? hne hh1 hh2 hd hee
      heq hreg hb hv hsv

/-- `setValue` on a slice-destination flag whose `value.Set` succeeds:
whether or not the flag was already found, the slot is updated to the `Set`
result and the flag ends up in the found set (`finsert` is the identity when
already there). -/
theorem c4_setValue (d d2 : Dest) (fnd aa : List Str) (srcs : List Source)
    (name : Str) (dflt : GoVal) (exs : List Extr) (v : Str)
    (hsl : isSlice d = true)
    (hvs : valueSet d (.str v) = (d2, none)) :
    FlagSet.setValue
      { parsed := true, argsAcc := aa,
        flags := [(name,
          { value := d, default := dflt, extractors := exs })],
        found := fnd, sources := srcs } name v =
    ({ parsed := true, argsAcc := aa,
       flags := [(name,
         { value := d2, default := dflt, extractors := exs })],
       found := finsert fnd name, sources := srcs }, none) := by
  unfold FlagSet.setValue
  dsimp only
  have hreg : alookup [(name,
      ({ value := d, default := dflt, extractors := exs } : Flag))] name =
      some { value := d, default := dflt, extractors := exs } := by
    simp [alookup]
  by_cases hm : name ∈ fnd
  · rw [if_pos hm, hreg]
    dsimp only
    rw [if_neg (fun hns => hns hsl), hvs]
    dsimp only
    simp [aset, finsert_of_mem fnd name hm]
  · rw [if_neg hm, hreg]
    dsimp only
    rw [hvs]
    dsimp only
    simp [aset]

/-- One token group per occurrence, so the token list is at least as long as
the occurrence list. -/
theorem occToks_join_len (name : Str) : ∀ occs : List (Str × Bool),
    occs.length ≤ ((occs.map (occToks name)).flatten).length
  | [] => Nat.le_refl 0
  | o :: os => by
    simp only [List.map_cons, List.flatten_cons, List.length_append,
      List.length_cons]
    have h1 : 1 ≤ (occToks name o).length := by
      rcases o with ⟨vo, bo⟩
      cases bo <;> simp [occToks]
    have h2 := occToks_join_len name os
    omega

/-- The tokenization loop over the token groups of a run of occurrences of
one slice-destination flag, each occurrence inline (`-name=v`) or with a
separate value token (`-name v`): the values are routed through `value.Set`
in occurrence order (an append per occurrence) and the flag is marked found
by the first occurrence. -/
theorem c4_loop : ∀ (occs : List (Str × Bool)) (d dN : Dest)
    (fnd aa : List Str) (srcs : List Source) (name : Str) (dflt : GoVal)
    (exs : List Extr) (fuel : Nat),
    occs.length ≤ fuel →
    name ≠ [] → name.head? ≠ some '-' → name.head? ≠ some '=' →
    '=' ∉ name → name ≠ 'h' :: [] → name ≠ 'h' :: 'e' :: 'l' :: 'p' :: [] →
    (∀ p ∈ occs, (p.2 = true → p.1 ≠ []) ∧
      (p.2 = false → p.1.head? ≠ some '-')) →
    isSlice d = true →
    appendAll d (occs.map Prod.fst) = some dN →
    FlagSet.parseLoop
      { parsed := true, argsAcc := aa,
        flags := [(name,
          { value := d, default := dflt, extractors := exs })],
        found := fnd, sources := srcs }
      fuel ((occs.map (occToks name)).flatten) =
    ({ parsed := true, argsAcc := aa,
       flags := [(name,
         { value := dN, default := dflt, extractors := exs })],
       found := if occs = [] then fnd else finsert fnd name,
       sources := srcs }, none)
  | [], d, dN, fnd, aa, srcs, name, dflt, exs, fuel => by
    intro _ _ _ _ _ _ _ _ _ hap
    simp only [appendAll, Option.some.injEq] at hap
    subst hap
    cases fuel with
    | zero => simp [FlagSet.parseLoop]
    | succ k => simp [FlagSet.parseLoop, FlagSet.parseNext]
  | (v, b) :: occs2, d, dN, fnd, aa, srcs, name, dflt, exs, fuel => by
    intro hlen hne hd hee heqn hh1 hh2 hocc hsl hap
    cases fuel with
    | zero => simp at hlen
    | succ k =>
      simp only [List.map_cons, appendAll] at hap
      rcases hvv : valueSet d (.str v) with ⟨d1, e?⟩
      rw [hvv] at hap
      cases e? with
      | some er =>
        dsimp only at hap
        simp at hap
      | none =>
        dsimp only at hap
        have hsl1 : isSlice d1 = true := by
          have hk := valueSet_isSlice d (.str v)
          rw [hvv] at hk
          exact hk.trans hsl
        have hsv := c4_setValue d d1 fnd aa srcs name dflt exs v hsl hvv
        have hcond := hocc (v, b) (List.mem_cons_self _ _)
        have hocc2 : ∀ p ∈ occs2, (p.2 = true → p.1 ≠ []) ∧
            (p.2 = false → p.1.head? ≠ some '-') :=
          fun p hp => hocc p (List.mem_cons_of_mem _ hp)
        have hlen2 : occs2.length ≤ k := Nat.le_of_succ_le_succ hlen
        cases b with
        | true =>
          have hv : v ≠ [] := hcond.1 rfl
          have hpn : FlagSet.parseNext
              { parsed := true, argsAcc := aa,
                flags := [(name,
                  { value := d, default := dflt, extractors := exs })],
                found := fnd, sources := srcs }
              ((('-' :: name) ++ '=' :: v) ::
                (occs2.map (occToks name)).flatten) =
              ({ parsed := true, argsAcc := aa,
                 flags := [(name,
                   { value := d1, default := dflt, extractors := exs })],
                 found := finsert fnd name, sources := srcs },
                .ok ((occs2.map (occToks name)).flatten)) := by
            have hh := (parseNext_inline _ _ name v
              ((occs2.map (occToks name)).flatten) none hne hd hee heqn hv hsv).1
            simpa [okOr] using hh
          simp only [FlagSet.parseLoop, List.map_cons, List.flatten_cons,
            occToks, List.singleton_append]
          rw [hpn]
          dsimp only
          cases occs2 with
          | nil =>
            simp only [appendAll, Option.some.injEq] at hap
            subst hap
            simp
          | cons o os =>
            rw [if_neg (by
              rcases o with ⟨vo, bo⟩
              cases bo <;> simp [occToks])]
            rw [c4_loop (o :: os) d1 dN (finsert fnd name) aa srcs name dflt
              exs k hlen2 hne hd hee heqn hh1 hh2 hocc2 hsl1 hap]
            simp [finsert_of_mem _ _ (mem_finsert_self fnd name)]
        | false =>
          have hv : v.head? ≠ some '-' := hcond.2 rfl
          have hpn : FlagSet.parseNext
              { parsed := true, argsAcc := aa,
                flags := [(name,
                  { value := d, default := dflt, extractors := exs })],
                found := fnd, sources := srcs }
              (('-' :: name) :: v :: (occs2.map (occToks name)).flatten) =
              ({ parsed := true, argsAcc := aa,
                 flags := [(name,
                   { value := d1, default := dflt, extractors := exs })],
                 found := finsert fnd name, sources := srcs },
                .ok ((occs2.map (occToks name)).flatten)) := by
            have hh := parseNext_sep _ _ name v
              ((occs2.map (occToks name)).flatten)
              { value := d, default := dflt, extractors := exs } none
              hne hh1 hh2 hd hee heqn (by simp [alookup])
              (isSlice_not_bool d hsl) hv hsv
            simpa [okOr] using hh
          simp only [FlagSet.parseLoop, List.map_cons, List.flatten_cons,
            occToks, List.cons_append, List.nil_append]
          rw [hpn]
          dsimp only
          cases occs2 with
          | nil =>
            simp only [appendAll, Option.some.injEq] at hap
            subst hap
            simp
          | cons o os =>
            rw [if_neg (by
              rcases o with ⟨vo, bo⟩
              cases bo <;> simp [occToks])]
            rw [c4_loop (o :: os) d1 dN (finsert fnd name) aa srcs name dflt
              exs k hlen2 hne hd hee heqn hh1 hh2 hocc2 hsl1 hap]
            simp [finsert_of_mem _ _ (mem_finsert_self fnd name)]

/-- Iterated `value.Set` onto a list destination built by `mk` whose
per-element string coercion is `p`: starting from `acc` and feeding the
value strings `vs` yields `acc` extended by the coerced values, in order. -/
theorem appendAll_mk {β : Type} (mk : List β → Dest) (p : Str → Option β)
    (hstep : ∀ (acc : List β) (v : Str), valueSet (mk acc) (.str v) =
      match p v with
      | some n => (mk (acc ++ [n]), none)
      | none => (mk acc, some .parseFailure)) :
    ∀ (vs : List Str) (acc cs : List β),
      mapAll p vs = some cs → appendAll (mk acc) vs = some (mk (acc ++ cs))
  | [], acc, cs => by
    intro h
    simp only [mapAll, Option.some.injEq] at h
    subst h
    simp [appendAll]
  | v :: rest, acc, cs => by
    intro h
    simp only [mapAll] at h
    cases hp : p v with
    | none =>
      rw [hp] at h
      simp at h
    | some n =>
      rw [hp] at h
      cases hr : mapAll p rest with
      | none =>
        rw [hr] at h
        simp at h
      | some l =>
        rw [hr] at h
        dsimp only at h
        have hcs : cs = n :: l := (Option.some.inj h).symm
        subst hcs
        unfold appendAll
        rw [hstep acc v, hp]
        dsimp only
        rw [appendAll_mk mk p hstep rest (acc ++ [n]) l hr]
        simp

/-- C4: every list-typed flag supplied N ≥ 1 times on the command line with
scalar values — each occurrence either inline (`-name=v`) or with a separate
value token (`-name v`) — ends up, after `Parse`, with its destination equal
to the iterated `value.Set` of those values in occurrence order, under any
fallback sources (the found flag is skipped by resolution), and with no
sources the `Parse` is successful; and for each of the seven slice kinds the
iterated `value.Set` is exactly the ordered sequence of the element-wise
coerced values appended to the starting contents. -/
theorem c4_list_accumulates :
    (∀ (name : Str) (d dN : Dest) (dflt : GoVal) (exs : List Extr)
        (occs : List (Str × Bool)) (aa : List Str) (srcs : List Source)
        (envr : Environment),
      name ≠ [] → name.head? ≠ some '-' → name.head? ≠ some '=' →
      '=' ∉ name → name ≠ 'h' :: [] → name ≠ 'h' :: 'e' :: 'l' :: 'p' :: [] →
      occs ≠ [] →
      (∀ p ∈ occs, (p.2 = true → p.1 ≠ []) ∧
        (p.2 = false → p.1.head? ≠ some '-')) →
      isSlice d = true →
      appendAll d (occs.map Prod.fst) = some dN →
      alookup (FlagSet.parse envr
          { argsAcc := aa,
            flags := [(name,
              { value := d, default := dflt, extractors := exs })] }
          ((occs.map (occToks name)).flatten) srcs).1.flags name =
        some { value := dN, default := dflt, extractors := exs } ∧
      (FlagSet.parse envr
          { argsAcc := aa,
            flags := [(name,
              { value := d, default := dflt, extractors := exs })] }
          ((occs.map (occToks name)).flatten) []).2.1 = none) ∧
    (∀ (acc vs : List Str),
      appendAll (.dStringList acc) vs = some (.dStringList (acc ++ vs))) ∧
    (∀ (acc : List Int) (vs : List Str) (cs : List Int),
      mapAll goParseInt vs = some cs →
      appendAll (.dIntList acc) vs = some (.dIntList (acc ++ cs))) ∧
    (∀ (acc : List Nat) (vs : List Str) (cs : List Nat),
      mapAll goParseUint vs = some cs →
      appendAll (.dUintList acc) vs = some (.dUintList (acc ++ cs))) ∧
    (∀ (acc : List Int) (vs : List Str) (cs : List Int),
      mapAll goParseInt vs = some cs →
      appendAll (.dInt64List acc) vs = some (.dInt64List (acc ++ cs))) ∧
    (∀ (acc : List Nat) (vs : List Str) (cs : List Nat),
      mapAll goParseUint vs = some cs →
      appendAll (.dUint64List acc) vs = some (.dUint64List (acc ++ cs))) ∧
    (∀ (acc : List Int) (vs : List Str) (cs : List Int),
      mapAll goParseDuration vs = some cs →
      appendAll (.dDurationList acc) vs = some (.dDurationList (acc ++ cs))) ∧
    (∀ (acc : List Rat) (vs : List Str) (cs : List Rat),
      mapAll goParseFloat vs = some cs →
      appendAll (.dFloat64List acc) vs = some (.dFloat64List (acc ++ cs))) := by
  refine ⟨?_, ?_, ?_, ?_, ?_, ?_, ?_, ?_⟩
  · intro name d dN dflt exs occs aa srcs envr hne hd hee heqn hh1 hh2 hocc0
      hocc hsl hap
    constructor
    · have htok := c4_loop occs d dN [] aa srcs name dflt exs
        (((occs.map (occToks name)).flatten).length + 1)
        ((occToks_join_len name occs).trans (Nat.le_succ _))
        hne hd hee heqn hh1 hh2 hocc hsl hap
      unfold FlagSet.parse
      rw [if_neg (by simp)]
      rw [htok, if_neg hocc0]
      dsimp only
      split
      · simp [alookup]
      · rename_i evs sts heq1
        have hsk := resolveFlags_skips_found
            [(name,
              { value := dN, default := dflt, extractors := exs })] envr
            { parsed := true, argsAcc := aa,
              flags := [(name,
                { value := dN, default := dflt, extractors := exs })],
              found := finsert [] name, sources := srcs }
            (enumSources srcs sts) name (mem_finsert_self [] name)
        dsimp only
        exact hsk.1.trans (by simp [alookup])
    · have htok := c4_loop occs d dN [] aa [] name dflt exs
        (((occs.map (occToks name)).flatten).length + 1)
        ((occToks_join_len name occs).trans (Nat.le_succ _))
        hne hd hee heqn hh1 hh2 hocc hsl hap
      unfold FlagSet.parse
      rw [if_neg (by simp)]
      rw [htok, if_neg hocc0]
      dsimp only
      rw [show openAllFrom 0 ([] : List Source) = ([], Except.ok []) from rfl]
      dsimp only
      unfold FlagSet.resolveFlags
      rw [if_pos (mem_finsert_self [] name)]
      unfold FlagSet.resolveFlags
      rfl
  · intro acc vs
    have hid : mapAll (fun v => some v) vs = some vs := by
      induction vs with
      | nil => rfl
      | cons a t ih => simp [mapAll, ih]
    exact appendAll_mk Dest.dStringList (fun v => some v)
      (fun acc2 v => by simp [valueSet, assignStringList, assignString])
      vs acc vs hid
  · intro acc vs cs h
    exact appendAll_mk Dest.dIntList goParseInt
      (fun acc2 v => by
        cases hp : goParseInt v with
        | none =>
          simp [valueSet, assignIntList, numScalarCase, assignInt, strToInt, hp]
        | some n =>
          simp [valueSet, assignIntList, numScalarCase, assignInt, strToInt, hp])
      vs acc cs h
  · intro acc vs cs h
    exact appendAll_mk Dest.dUintList goParseUint
      (fun acc2 v => by
        cases hp : goParseUint v with
        | none =>
          simp [valueSet, assignUintList, numScalarCase, assignUint,
            strToUint, hp]
        | some n =>
          simp [valueSet, assignUintList, numScalarCase, assignUint,
            strToUint, hp])
      vs acc cs h
  · intro acc vs cs h
    exact appendAll_mk Dest.dInt64List goParseInt
      (fun acc2 v => by
        cases hp : goParseInt v with
        | none =>
          simp [valueSet, assignInt64List, numScalarCase, assignInt64,
            strToInt, hp]
        | some n =>
          simp [valueSet, assignInt64List, numScalarCase, assignInt64,
            strToInt, hp])
      vs acc cs h
  · intro acc vs cs h
    exact appendAll_mk Dest.dUint64List goParseUint
      (fun acc2 v => by
        cases hp : goParseUint v with
        | none =>
          simp [valueSet, assignUint64List, numScalarCase, assignUint64,
            strToUint, hp]
        | some n =>
          simp [valueSet, assignUint64List, numScalarCase, assignUint64,
            strToUint, hp])
      vs acc cs h
  · intro acc vs cs h
    exact appendAll_mk Dest.dDurationList goParseDuration
      (fun acc2 v => by
        cases hp : goParseDuration v with
        | none =>
          simp [valueSet, assignDurationList, durScalarCase, assignDuration,
            strToDuration, hp]
        | some n =>
          simp [valueSet, assignDurationList, durScalarCase, assignDuration,
            strToDuration, hp])
      vs acc cs h
  · intro acc vs cs h
    exact appendAll_mk Dest.dFloat64List goParseFloat
      (fun acc2 v => by
        cases hp : goParseFloat v with
        | none =>
          simp [valueSet, assignFloat64List, floatScalarCase, assignFloat64,
            strToFloat, hp]
        | some n =>
          simp [valueSet, assignFloat64List, floatScalarCase, assignFloat64,
            strToFloat, hp])
      vs acc cs h

theorem c4_list_accumulates_witness :
    (('x' :: []) : Str) ≠ [] ∧
    (('x' :: []) : Str).head? ≠ some '-' ∧
    (('x' :: []) : Str).head? ≠ some '=' ∧
    '=' ∉ (('x' :: []) : Str) ∧
    (('x' :: []) : Str) ≠ 'h' :: [] ∧
    (('x' :: []) : Str) ≠ 'h' :: 'e' :: 'l' :: 'p' :: [] ∧
    ([(('4' :: [] : Str), true), (('2' :: [] : Str), false)] :
      List (Str × Bool)) ≠ [] ∧
    (∀ p ∈ ([(('4' :: [] : Str), true), (('2' :: [] : Str), false)] :
        List (Str × Bool)),
      (p.2 = true → p.1 ≠ []) ∧ (p.2 = false → p.1.head? ≠ some '-')) ∧
    isSlice (Dest.dIntList []) = true ∧
    appendAll (Dest.dIntList [])
      (([(('4' :: [] : Str), true), (('2' :: [] : Str), false)] :
        List (Str × Bool)).map Prod.fst) =
      some (Dest.dIntList ((4 : Int) :: 2 :: [])) ∧
    (alookup (FlagSet.parse []
        { argsAcc := [],
          flags := [((('x' :: []) : Str),
            { value := Dest.dIntList [], default := GoVal.nilVal,
              extractors := [] })] }
        ((([(('4' :: [] : Str), true), (('2' :: [] : Str), false)] :
          List (Str × Bool)).map (occToks ('x' :: []))).flatten)
        [Source.env []]).1.flags ('x' :: []) =
      some { value := Dest.dIntList ((4 : Int) :: 2 :: []),
             default := GoVal.nilVal, extractors := [] } ∧
    (FlagSet.parse []
        { argsAcc := [],
          flags := [((('x' :: []) : Str),
            { value := Dest.dIntList [], default := GoVal.nilVal,
              extractors := [] })] }
        ((([(('4' :: [] : Str), true), (('2' :: [] : Str), false)] :
          List (Str × Bool)).map (occToks ('x' :: []))).flatten) []).2.1 =
      none) :=
  ⟨by decide, by decide, by decide, by decide, by decide, by decide,
    by decide, by decide, rfl, by decide,
    c4_list_accumulates.1 ('x' :: []) (Dest.dIntList [])
      (Dest.dIntList ((4 : Int) :: 2 :: [])) GoVal.nilVal []
      [(('4' :: [] : Str), true), (('2' :: [] : Str), false)] []
      [Source.env []] [] (by decide) (by decide) (by decide) (by decide)
      (by decide) (by decide) (by decide) (by decide) rfl (by decide)⟩

end Flagga
